import Mathlib

/-!
Inventory allocation engine: a shallow embedding

This file embeds the core of `app/utils/allocation_4.py`
(`InventoryAllocationSystem.run_analysis` and
`InventoryAllocationSystem.run_allocation`) as executable Lean definitions
and proves the spec's testable properties about them.

Modelling conventions:
* Dataframes become lists of records; identifiers and quantities are `Int`.
* `expiry_date` and the current time are modelled as integers (days); the
  source only adds day offsets to "now" and compares dates, so any linearly
  ordered time type is faithful.
* The central-warehouse working copy keeps each batch paired with its
  original dataframe row index (`Nat`), mirroring the pandas index that
  `run_allocation` uses (`cw_stock_sorted.loc[batch_idx, ...]`) to mutate
  batches in place.  `AllocationRecord.batch_idx` records that index; the
  source dict does not store it, but the field is pure bookkeeping that lets
  us state per-batch conservation, and it does not influence the run.
* Where pandas sorts (groupby keys, `sort_values`), we sort with the stable
  `List.insertionSort` over the same key; the source's sort is unstable, so
  orders agree up to ties in the sort key, which no stated property
  distinguishes.
* The one crash-capable operation, `.iloc[0]` on the analysis rows matching
  an unfulfilled key (line 169), is modelled with `Option`: `none` stands
  for the `IndexError` path.
-/

/-- A cleaned forecast row: `forecast_df` of the source. -/
structure ForecastRecord where
  product_id : Int
  branch_id : Int
  channel_id : Int
  forecast_quantity : Int
deriving DecidableEq, Repr

/-- A cleaned stock row (one batch): `stock_df` of the source. -/
structure StockBatch where
  product_id : Int
  branch_id : Int
  stock_available : Int
  expiry_date : Int
deriving DecidableEq, Repr

/-- A row of `analysis_df` as produced by `run_analysis`. -/
structure AnalysisRow where
  product_id : Int
  branch_id : Int
  channel_id : Int
  forecast_quantity : Int
  total_stock_available : Int
  total_forecast_at_branch : Int
  branch_net_need : Int
  allocation_status : String
deriving DecidableEq, Repr

/-- A row of `allocation_plan_df`; `batch_idx` is the original stock-row
index of the source batch (bookkeeping, see module docstring). -/
structure AllocationRecord where
  product_id : Int
  from_branch : Int
  to_branch : Int
  channel_id : Int
  quantity_allocated : Int
  expiry_date : Int
  batch_idx : Nat
deriving DecidableEq, Repr

/-- A row of `unfulfilled_demands_df`. -/
structure UnfulfilledDemand where
  product_id : Int
  branch_id : Int
  needed : Int
  fulfilled : Int
  unfulfilled : Int
deriving DecidableEq, Repr

/-! ## Sort keys

Lexicographic comparison on pairs and triples of integers, used for the
pandas groupby key orders and `sort_values` calls. -/

/-- Lexicographic `≤` on integer pairs. -/
def lex2 (a b : Int × Int) : Prop :=
  a.1 < b.1 ∨ (a.1 = b.1 ∧ a.2 ≤ b.2)

instance : DecidableRel lex2 := fun a b => by
  unfold lex2; exact inferInstance

/-- Lexicographic `≤` on integer triples. -/
def lex3 (a b : Int × Int × Int) : Prop :=
  a.1 < b.1 ∨ (a.1 = b.1 ∧ (a.2.1 < b.2.1 ∨ (a.2.1 = b.2.1 ∧ a.2.2 ≤ b.2.2)))

instance : DecidableRel lex3 := fun a b => by
  unfold lex3; exact inferInstance

/-! ## `run_analysis` (lines 75-101) -/

/-- Stock at destination branches: `stock_df[stock_df.branch_id != cw_branch_id]`
(line 80). -/
def destinationStock (stock : List StockBatch) (cw : Int) : List StockBatch :=
  stock.filter (fun s => s.branch_id ≠ cw)

/-- `agg_branch_stock` looked up at key `(p, b)` with the left-join's
`fillna(0)` built in (lines 81-82, 88-89): the sum of `stock_available`
over destination-stock rows with that key, `0` when there are none. -/
def branchStockSum (stock : List StockBatch) (cw p b : Int) : Int :=
  (((destinationStock stock cw).filter
      (fun s => s.product_id = p ∧ s.branch_id = b)).map (·.stock_available)).sum

/-- `agg_forecast` at key `(p, b, c)` (line 85): summed forecast quantity. -/
def channelForecastSum (forecast : List ForecastRecord) (p b c : Int) : Int :=
  ((forecast.filter
      (fun r => r.product_id = p ∧ r.branch_id = b ∧ r.channel_id = c)).map
    (·.forecast_quantity)).sum

/-- `total_forecast_at_branch` at key `(p, b)` (lines 91-94): the grouped sum
of the aggregated per-channel quantities, which equals the sum over all raw
forecast rows with that `(product_id, branch_id)`. -/
def branchForecastSum (forecast : List ForecastRecord) (p b : Int) : Int :=
  ((forecast.filter
      (fun r => r.product_id = p ∧ r.branch_id = b)).map (·.forecast_quantity)).sum

/-- `branch_net_need` at key `(p, b)` (line 95). -/
def netNeed (forecast : List ForecastRecord) (stock : List StockBatch)
    (cw p b : Int) : Int :=
  branchForecastSum forecast p b - branchStockSum stock cw p b

/-- The status lambda of lines 98-100. -/
def allocationStatus (x : Int) : String :=
  if x > 0 then "Allocation Needed"
  else if x = 0 then "No Allocation Needed"
  else "Overstock"

/-- The distinct `(product_id, branch_id, channel_id)` groupby keys of the
forecast, in the sorted order pandas emits them (line 85). -/
def forecastKeys (forecast : List ForecastRecord) : List (Int × Int × Int) :=
  List.insertionSort lex3
    ((forecast.map (fun r => (r.product_id, r.branch_id, r.channel_id))).dedup)

/-- The analysis row built for one groupby key (the merges of lines 88-100
broadcast the branch-level quantities onto every channel row of the key). -/
def mkAnalysisRow (forecast : List ForecastRecord) (stock : List StockBatch)
    (cw : Int) (k : Int × Int × Int) : AnalysisRow :=
  { product_id := k.1
    branch_id := k.2.1
    channel_id := k.2.2
    forecast_quantity := channelForecastSum forecast k.1 k.2.1 k.2.2
    total_stock_available := branchStockSum stock cw k.1 k.2.1
    total_forecast_at_branch := branchForecastSum forecast k.1 k.2.1
    branch_net_need := netNeed forecast stock cw k.1 k.2.1
    allocation_status := allocationStatus (netNeed forecast stock cw k.1 k.2.1) }

/-- `run_analysis` (lines 75-101): one row per distinct forecast key. -/
def runAnalysis (forecast : List ForecastRecord) (stock : List StockBatch)
    (cw : Int) : List AnalysisRow :=
  (forecastKeys forecast).map (mkAnalysisRow forecast stock cw)

/-! ## `run_allocation` (lines 103-177) -/

/-- `demand_df` (line 107): analysis rows that need allocation. -/
def demandLines (analysis : List AnalysisRow) : List AnalysisRow :=
  analysis.filter (fun r => r.allocation_status = "Allocation Needed")

/-- `priority_rank_channel` (line 109). -/
def chanRank (pc : List Int) (c : Int) : Int :=
  if c ∈ pc then 1 else 2

/-- `priority_rank_branch` (line 110). -/
def branchRank (pb : List Int) (b : Int) : Int :=
  if b ∈ pb then 1 else 2

/-- The `sort_values` key of lines 112-115: ascending on the two ranks, then
descending on `forecast_quantity` (encoded by negation). -/
def demandKey (pc pb : List Int) (x : AnalysisRow) : Int × Int × Int :=
  (chanRank pc x.channel_id, branchRank pb x.branch_id, -x.forecast_quantity)

/-- Row order of `prioritized_demand_df`. -/
def demandRel (pc pb : List Int) (x y : AnalysisRow) : Prop :=
  lex3 (demandKey pc pb x) (demandKey pc pb y)

instance (pc pb : List Int) : DecidableRel (demandRel pc pb) := fun a b => by
  unfold demandRel; exact inferInstance

/-- `prioritized_demand_df` (lines 112-115). -/
def prioritizedDemand (pc pb : List Int) (analysis : List AnalysisRow) :
    List AnalysisRow :=
  List.insertionSort (demandRel pc pb) (demandLines analysis)

/-- Row order of `cw_stock_sorted`: `sort_values(by=['product_id', 'expiry_date'])`
(line 117), on index-tagged batches. -/
def cwStockRel (a b : Nat × StockBatch) : Prop :=
  lex2 (a.2.product_id, a.2.expiry_date) (b.2.product_id, b.2.expiry_date)

instance : DecidableRel cwStockRel := fun a b => by
  unfold cwStockRel; exact inferInstance

/-- `cw_stock_sorted` (line 117): the CW rows of the stock table, tagged with
their original row index, sorted by `(product_id, expiry_date)`. -/
def cwStockSorted (stock : List StockBatch) (cw : Int) : List (Nat × StockBatch) :=
  List.insertionSort cwStockRel (stock.enum.filter (fun e => e.2.branch_id = cw))

/-- The distinct `(product_id, branch_id)` groupby keys of the demand lines,
sorted as pandas emits them (line 119). -/
def trackerKeys (dl : List AnalysisRow) : List (Int × Int) :=
  List.insertionSort lex2 ((dl.map (fun r => (r.product_id, r.branch_id))).dedup)

/-- `groupby(...)['branch_net_need'].first()` for one key (line 119): the
`branch_net_need` of the first demand line with that key. -/
def firstNeed (dl : List AnalysisRow) (k : Int × Int) : Int :=
  ((dl.find? (fun r => r.product_id = k.1 ∧ r.branch_id = k.2)).map
    (·.branch_net_need)).getD 0

/-- `branch_need_tracker` (line 119) as an association list in dict insertion
order. -/
def initTracker (dl : List AnalysisRow) : List ((Int × Int) × Int) :=
  (trackerKeys dl).map (fun k => (k, firstNeed dl k))

/-- `branch_need_tracker.get(branch_key, 0)` (line 129). -/
def trackerGet (tr : List ((Int × Int) × Int)) (k : Int × Int) : Int :=
  ((tr.find? (fun t => t.1 = k)).map (·.2)).getD 0

/-- `branch_need_tracker[branch_key] -= d` (line 164). -/
def trackerSub (tr : List ((Int × Int) × Int)) (k : Int × Int) (d : Int) :
    List ((Int × Int) × Int) :=
  tr.map (fun t => if t.1 = k then (t.1, t.2 - d) else t)

/-- `expiry_rules.get(channel_id, 0)` (line 138). -/
def ruleDays (rules : List (Int × Int)) (c : Int) : Int :=
  ((rules.find? (fun e => e.1 = c)).map (·.2)).getD 0

/-- The inner batch loop of lines 149-162 for one demand line.  Arguments:
product `p`, `required_expiry_date` `req`, the CW id, destination branch
`b`, channel `c`, `qty_to_fulfill_for_channel` `target`; then the working
stock list and `fulfilled_for_channel` so far.  Returns the updated working
stock, the final `fulfilled_for_channel`, and the records appended.
Walking the whole working list and testing the `available_batches` filter
condition inline is equivalent to the source's iteration over the filtered
frame with index-based writeback, because each row is visited at most once
per demand line. -/
def allocFromBatches (p req cwid b c target : Int) :
    List (Nat × StockBatch) → Int →
      List (Nat × StockBatch) × Int × List AllocationRecord
  | [], f => ([], f, [])
  | e :: l, f =>
    if e.2.product_id = p ∧ req ≤ e.2.expiry_date then
      if e.2.stock_available = 0 then
        let r := allocFromBatches p req cwid b c target l f
        (e :: r.1, r.2.1, r.2.2)
      else
        let take := min (target - f) e.2.stock_available
        let rec0 : AllocationRecord :=
          { product_id := p, from_branch := cwid, to_branch := b, channel_id := c,
            quantity_allocated := take, expiry_date := e.2.expiry_date,
            batch_idx := e.1 }
        let e' : Nat × StockBatch :=
          (e.1, { e.2 with stock_available := e.2.stock_available - take })
        if f + take = target then (e' :: l, f + take, [rec0])
        else
          let r := allocFromBatches p req cwid b c target l (f + take)
          (e' :: r.1, r.2.1, rec0 :: r.2.2)
    else
      let r := allocFromBatches p req cwid b c target l f
      (e :: r.1, r.2.1, r.2.2)

/-- The mutable state threaded through the demand loop: the working CW stock
copy and the branch-need tracker. -/
structure AllocState where
  stock : List (Nat × StockBatch)
  tracker : List ((Int × Int) × Int)
deriving DecidableEq, Repr

/-- One iteration of the demand loop (lines 124-164).  Returns the updated
state and the records this line appended. -/
def processLine (cwid now : Int) (rules : List (Int × Int)) (st : AllocState)
    (line : AnalysisRow) : AllocState × List AllocationRecord :=
  let k := (line.product_id, line.branch_id)
  let remaining := trackerGet st.tracker k
  if remaining ≤ 0 then (st, [])
  else
    let target := min line.forecast_quantity remaining
    let req := now + ruleDays rules line.channel_id
    if (st.stock.filter
        (fun e => e.2.product_id = line.product_id ∧ req ≤ e.2.expiry_date)).isEmpty then
      (st, [])
    else
      let r := allocFromBatches line.product_id req cwid line.branch_id
        line.channel_id target st.stock 0
      ({ stock := r.1, tracker := trackerSub st.tracker k r.2.1 }, r.2.2)

/-- The whole demand loop.  The second component lists, per processed demand
line, the block of records that line appended; `allocation_plan` is their
concatenation. -/
def runLines (cwid now : Int) (rules : List (Int × Int)) :
    AllocState → List AnalysisRow → AllocState × List (List AllocationRecord)
  | st, [] => (st, [])
  | st, line :: rest =>
    let pr := processLine cwid now rules st line
    let r := runLines cwid now rules pr.1 rest
    (r.1, pr.2 :: r.2)

/-- The reconciliation loop of lines 166-173.  `none` models the `IndexError`
that `.iloc[0]` would raise if no analysis row matched a tracker key. -/
def unfulfilledList (analysis : List AnalysisRow) :
    List ((Int × Int) × Int) → Option (List UnfulfilledDemand)
  | [] => some []
  | (k, remaining) :: rest =>
    if remaining > 0 then
      match analysis.find? (fun r => r.product_id = k.1 ∧ r.branch_id = k.2) with
      | none => none
      | some row =>
        (unfulfilledList analysis rest).map (fun tl =>
          { product_id := k.1, branch_id := k.2, needed := row.branch_net_need,
            fulfilled := row.branch_net_need - remaining,
            unfulfilled := remaining } :: tl)
    else unfulfilledList analysis rest

/-- The three outputs of `run_allocation`. -/
structure AllocResult where
  plan : List AllocationRecord
  unfulfilled : List UnfulfilledDemand
  remaining : List (Nat × StockBatch)
deriving DecidableEq, Repr

/-- The state at the top of the demand loop (lines 117-119). -/
def initState (analysis : List AnalysisRow) (stock : List StockBatch)
    (cw : Int) : AllocState :=
  { stock := cwStockSorted stock cw, tracker := initTracker (demandLines analysis) }

/-- `run_allocation` (lines 103-177).  `now` is `datetime.now()` in days. -/
def runAllocation (analysis : List AnalysisRow) (stock : List StockBatch)
    (cw : Int) (pc pb : List Int) (rules : List (Int × Int)) (now : Int) :
    Option AllocResult :=
  let sorted := prioritizedDemand pc pb analysis
  let r := runLines cw now rules (initState analysis stock cw) sorted
  (unfulfilledList analysis r.1.tracker).map (fun uf =>
    { plan := r.2.flatten, unfulfilled := uf,
      remaining := r.1.stock.filter (fun e => 0 < e.2.stock_available) })

/-! ## The surrounding object state (for the frame property)

`run_allocation` is a method on `InventoryAllocationSystem`; it reads
`self.analysis_df` and `self.stock_df` (taking `.copy()` of the slices it
mutates, lines 107 and 117) and assigns only the three output dataframes
(lines 175-177).  We model the instance and the method as a state
transformer. -/

/-- The dataframe-holding fields of `InventoryAllocationSystem`. -/
structure SystemState where
  forecast_df : List ForecastRecord
  stock_df : List StockBatch
  analysis_df : List AnalysisRow
  allocation_plan_df : List AllocationRecord
  unfulfilled_demands_df : List UnfulfilledDemand
  remaining_cw_stock_df : List (Nat × StockBatch)
  cw_branch_id : Int
deriving DecidableEq, Repr

/-- `run_allocation` as a method: reads `analysis_df`, `stock_df` and
`cw_branch_id`; writes the three output fields (lines 175-177) and nothing
else, since the working copies of lines 107 and 117 shield the inputs. -/
def runAllocationSys (sys : SystemState) (pc pb : List Int)
    (rules : List (Int × Int)) (now : Int) : Option SystemState :=
  (runAllocation sys.analysis_df sys.stock_df sys.cw_branch_id pc pb rules now).map
    (fun r =>
      { sys with
        allocation_plan_df := r.plan
        unfulfilled_demands_df := r.unfulfilled
        remaining_cw_stock_df := r.remaining })

/-! ## Derived accounting functions used to state the properties -/

/-- Total quantity the plan draws from the stock row with index `i`. -/
def planSumBatch (plan : List AllocationRecord) (i : Nat) : Int :=
  ((plan.filter (fun rec1 => rec1.batch_idx = i)).map (·.quantity_allocated)).sum

/-- Total quantity the plan sends to branch `b` for product `p`. -/
def planSumBranch (plan : List AllocationRecord) (p b : Int) : Int :=
  ((plan.filter (fun rec1 => rec1.product_id = p ∧ rec1.to_branch = b)).map
    (·.quantity_allocated)).sum

/-! ## Accounting quantities and witness data -/

/-- Total quantity of a record list. -/
def recsTotal (recs : List AllocationRecord) : Int :=
  (recs.map (·.quantity_allocated)).sum

/-- How one working-stock entry evolves across a stretch of the run that
appended the records `plan`: index and immutable fields are unchanged, and
`stock_available` has decreased by exactly what `plan` drew from this row;
a non-negative quantity stays non-negative. -/
def entryRel (plan : List AllocationRecord) (e e' : Nat × StockBatch) : Prop :=
  e'.1 = e.1 ∧ e'.2.product_id = e.2.product_id ∧
  e'.2.branch_id = e.2.branch_id ∧ e'.2.expiry_date = e.2.expiry_date ∧
  e'.2.stock_available = e.2.stock_available - planSumBatch plan e.1 ∧
  (0 ≤ e.2.stock_available → 0 ≤ e'.2.stock_available)

/-- How one tracker entry evolves across a stretch of the run that appended
the records `plan`. -/
def trackerRel (plan : List AllocationRecord) (t t' : (Int × Int) × Int) : Prop :=
  t'.1 = t.1 ∧ t'.2 = t.2 - planSumBranch plan t.1.1 t.1.2

/-- Concrete witness data shared by the claim witnesses below. -/
def wForecast : List ForecastRecord := [⟨1, 2, 1, 5⟩, ⟨1, 2, 3, 7⟩, ⟨4, 2, 1, 6⟩]

/-- Concrete stock table for the claim witnesses. -/
def wStock : List StockBatch := [⟨1, 2, 3, 50⟩, ⟨1, 9, 100, 40⟩, ⟨4, 9, 2, 60⟩]

/-- Working state for the C6 witness: one short-dated batch of product 1. -/
def wSkipState : AllocState :=
  { stock := [(0, ⟨1, 9, 5, 10⟩)], tracker := [((1, 2), 3)] }

/-- Demand line for the C6 witness: channel 3 requires 100 days of shelf
life, which the 10-day batch fails. -/
def wSkipLine : AnalysisRow := ⟨1, 2, 3, 4, 0, 4, 4, "Allocation Needed"⟩

/-- Instance state for the C7 witness, with junk in the output slots so the
replacement is visible. -/
def wSys : SystemState :=
  { forecast_df := [], stock_df := [⟨1, 0, 4, 30⟩], analysis_df := [],
    allocation_plan_df := [⟨9, 9, 9, 9, 9, 9, 9⟩],
    unfulfilled_demands_df := [⟨9, 9, 9, 9, 9⟩],
    remaining_cw_stock_df := [(7, ⟨9, 9, 9, 9⟩)], cw_branch_id := 0 }

/-- The state the C7 witness run produces. -/
def wSysOut : SystemState :=
  { forecast_df := [], stock_df := [⟨1, 0, 4, 30⟩], analysis_df := [],
    allocation_plan_df := [], unfulfilled_demands_df := [],
    remaining_cw_stock_df := [(0, ⟨1, 0, 4, 30⟩)], cw_branch_id := 0 }

/-- The result of the witness allocation run over `wForecast`/`wStock`. -/
def wRes : AllocResult :=
  { plan := [⟨1, 9, 2, 3, 7, 40, 1⟩, ⟨4, 9, 2, 1, 2, 60, 2⟩, ⟨1, 9, 2, 1, 2, 40, 1⟩],
    unfulfilled := [⟨4, 2, 6, 2, 4⟩],
    remaining := [(1, ⟨1, 9, 91, 40⟩)] }

/-- The CW batch (stock row 1) examined by the C2 witness. -/
def wBatch : StockBatch := ⟨1, 9, 100, 40⟩

/-! ## Generic list helpers -/

/-- Every element on the right of a `Forall₂` has a related partner on the
left. -/
theorem forall₂_exists_right {α β : Type} {S : α → β → Prop}
    {l : List α} {l' : List β} (h : List.Forall₂ S l l') {b : β} (hb : b ∈ l') :
    ∃ a ∈ l, S a b := by
  induction h with
  | nil => cases hb
  | cons hab _ ih =>
    rcases List.mem_cons.1 hb with rfl | hb'
    · exact ⟨_, List.mem_cons_self _ _, hab⟩
    · rcases ih hb' with ⟨a, ha, hrel⟩
      exact ⟨a, List.mem_cons_of_mem _ ha, hrel⟩

/-- Every element on the left of a `Forall₂` has a related partner on the
right. -/
theorem forall₂_exists_left {α β : Type} {S : α → β → Prop}
    {l : List α} {l' : List β} (h : List.Forall₂ S l l') {a : α} (ha : a ∈ l) :
    ∃ b ∈ l', S a b := by
  induction h with
  | nil => cases ha
  | cons hab _ ih =>
    rcases List.mem_cons.1 ha with rfl | ha'
    · exact ⟨_, List.mem_cons_self _ _, hab⟩
    · rcases ih ha' with ⟨b, hb, hrel⟩
      exact ⟨b, List.mem_cons_of_mem _ hb, hrel⟩

/-- Composition of two `Forall₂`s along a composition law on the relations. -/
theorem forall₂_trans_comp {α : Type} {R S T : α → α → Prop}
    (hcomp : ∀ a b c, R a b → S b c → T a c) :
    ∀ {l1 l2 l3 : List α}, List.Forall₂ R l1 l2 → List.Forall₂ S l2 l3 →
      List.Forall₂ T l1 l3 := by
  intro l1 l2 l3 h12 h23
  induction h12 generalizing l3 with
  | nil => cases h23; exact List.Forall₂.nil
  | cons hab _ ih =>
    cases h23 with
    | cons hbc htail => exact List.Forall₂.cons (hcomp _ _ _ hab hbc) (ih htail)

/-- A `Forall₂` whose relation preserves a measured value keeps the mapped
list unchanged. -/
theorem forall₂_map_eq {α β : Type} {S : α → α → Prop} {g : α → β}
    (hpres : ∀ a b, S a b → g b = g a) :
    ∀ {l l' : List α}, List.Forall₂ S l l' → l'.map g = l.map g := by
  intro l l' h
  induction h with
  | nil => rfl
  | cons hab _ ih => simp [ih, hpres _ _ hab]

/-- Transfer of a pairwise property across a `Forall₂` whose relation
respects it. -/
theorem forall₂_pairwise_transfer {α : Type} {R S : α → α → Prop}
    (hresp : ∀ a a' b b', S a a' → S b b' → R a b → R a' b') :
    ∀ {l l' : List α}, List.Forall₂ S l l' → l.Pairwise R → l'.Pairwise R := by
  intro l l' h hp
  induction h with
  | nil => exact List.Pairwise.nil
  | @cons a a' l0 l0' hab htail ih =>
    rcases List.pairwise_cons.1 hp with ⟨hhead, htl⟩
    refine List.pairwise_cons.2 ⟨?_, ih htl⟩
    intro b' hb'
    rcases forall₂_exists_right htail hb' with ⟨b, hb, hrel⟩
    exact hresp _ _ _ _ hab hrel (hhead b hb)

/-- In a list whose first projections are distinct, two members with the
same first projection coincide. -/
theorem eq_of_mem_of_fst_eq {α : Type} {l : List ((Int × Int) × α)}
    (hnd : (l.map Prod.fst).Nodup) {t t' : (Int × Int) × α}
    (ht : t ∈ l) (ht' : t' ∈ l) (hfst : t.1 = t'.1) : t = t' := by
  induction l with
  | nil => cases ht
  | cons a l ih =>
    rw [List.map_cons] at hnd
    rcases List.nodup_cons.1 hnd with ⟨hna, hnd'⟩
    rcases List.mem_cons.1 ht with rfl | ht0
    · rcases List.mem_cons.1 ht' with rfl | ht0'
      · rfl
      · exact absurd (by rw [hfst]; exact List.mem_map_of_mem Prod.fst ht0') hna
    · rcases List.mem_cons.1 ht' with rfl | ht0'
      · exact absurd (by rw [← hfst]; exact List.mem_map_of_mem Prod.fst ht0) hna
      · exact ih hnd' ht0 ht0'

/-- Same as `eq_of_mem_of_fst_eq` for `Nat`-indexed stock entries. -/
theorem eq_of_mem_of_idx_eq {α : Type} {l : List (Nat × α)}
    (hnd : (l.map Prod.fst).Nodup) {t t' : Nat × α}
    (ht : t ∈ l) (ht' : t' ∈ l) (hfst : t.1 = t'.1) : t = t' := by
  induction l with
  | nil => cases ht
  | cons a l ih =>
    rw [List.map_cons] at hnd
    rcases List.nodup_cons.1 hnd with ⟨hna, hnd'⟩
    rcases List.mem_cons.1 ht with rfl | ht0
    · rcases List.mem_cons.1 ht' with rfl | ht0'
      · rfl
      · exact absurd (by rw [hfst]; exact List.mem_map_of_mem Prod.fst ht0') hna
    · rcases List.mem_cons.1 ht' with rfl | ht0'
      · exact absurd (by rw [← hfst]; exact List.mem_map_of_mem Prod.fst ht0) hna
      · exact ih hnd' ht0 ht0'

/-! ## Order facts for the sort keys -/

theorem lex2_total (a b : Int × Int) : lex2 a b ∨ lex2 b a := by
  unfold lex2; omega

theorem lex2_trans {a b c : Int × Int} (h1 : lex2 a b) (h2 : lex2 b c) :
    lex2 a c := by
  unfold lex2 at *; omega

theorem lex3_total (a b : Int × Int × Int) : lex3 a b ∨ lex3 b a := by
  unfold lex3; omega

theorem lex3_trans {a b c : Int × Int × Int} (h1 : lex3 a b) (h2 : lex3 b c) :
    lex3 a c := by
  unfold lex3 at *; omega

theorem prioritizedDemand_sorted (pc pb : List Int) (analysis : List AnalysisRow) :
    (prioritizedDemand pc pb analysis).Pairwise (demandRel pc pb) := by
  letI : IsTotal AnalysisRow (demandRel pc pb) :=
    ⟨fun a b => lex3_total (demandKey pc pb a) (demandKey pc pb b)⟩
  letI : IsTrans AnalysisRow (demandRel pc pb) :=
    ⟨fun _ _ _ h1 h2 => lex3_trans h1 h2⟩
  exact List.sorted_insertionSort (demandRel pc pb) (demandLines analysis)

theorem prioritizedDemand_perm (pc pb : List Int) (analysis : List AnalysisRow) :
    (prioritizedDemand pc pb analysis).Perm (demandLines analysis) :=
  List.perm_insertionSort (demandRel pc pb) (demandLines analysis)

theorem cwStockSorted_pairwise (stock : List StockBatch) (cw : Int) :
    (cwStockSorted stock cw).Pairwise cwStockRel := by
  letI : IsTotal (Nat × StockBatch) cwStockRel :=
    ⟨fun a b => lex2_total _ _⟩
  letI : IsTrans (Nat × StockBatch) cwStockRel :=
    ⟨fun _ _ _ h1 h2 => lex2_trans h1 h2⟩
  exact List.sorted_insertionSort cwStockRel _

theorem cwStockSorted_mem {stock : List StockBatch} {cw : Int}
    {e : Nat × StockBatch} :
    e ∈ cwStockSorted stock cw ↔ e ∈ stock.enum ∧ e.2.branch_id = cw := by
  unfold cwStockSorted
  rw [List.mem_insertionSort, List.mem_filter]
  simp

theorem cwStockSorted_idx_nodup (stock : List StockBatch) (cw : Int) :
    ((cwStockSorted stock cw).map Prod.fst).Nodup := by
  have hperm : (cwStockSorted stock cw).Perm
      (stock.enum.filter (fun e => e.2.branch_id = cw)) :=
    List.perm_insertionSort _ _
  have hsub : ((stock.enum.filter (fun e => e.2.branch_id = cw)).map Prod.fst).Sublist
      (stock.enum.map Prod.fst) :=
    (List.filter_sublist _).map Prod.fst
  exact ((hperm.map Prod.fst).nodup_iff).2
    (hsub.nodup (List.nodup_enum_map_fst stock))

/-- Mem-aware monotonicity for `Forall₂`. -/
theorem forall₂_imp_of_mem_left {α β : Type} {R S : α → β → Prop}
    {l : List α} {l' : List β} (h : ∀ a ∈ l, ∀ b, R a b → S a b)
    (hf : List.Forall₂ R l l') : List.Forall₂ S l l' := by
  induction hf with
  | nil => exact List.Forall₂.nil
  | cons hab htail ih =>
    exact List.Forall₂.cons (h _ (List.mem_cons_self _ _) _ hab)
      (ih (fun a ha => h a (List.mem_cons_of_mem _ ha)))

/-! ## Accounting relations -/

theorem planSumBatch_nil (i : Nat) : planSumBatch [] i = 0 := rfl

theorem planSumBatch_cons (r : AllocationRecord) (recs : List AllocationRecord)
    (i : Nat) :
    planSumBatch (r :: recs) i =
      (if r.batch_idx = i then r.quantity_allocated else 0) + planSumBatch recs i := by
  simp only [planSumBatch, List.filter_cons]
  split_ifs with h <;> simp_all

theorem planSumBatch_append (p1 p2 : List AllocationRecord) (i : Nat) :
    planSumBatch (p1 ++ p2) i = planSumBatch p1 i + planSumBatch p2 i := by
  simp [planSumBatch, List.filter_append]

theorem planSumBatch_eq_zero {recs : List AllocationRecord} {i : Nat}
    (h : ∀ r ∈ recs, r.batch_idx ≠ i) : planSumBatch recs i = 0 := by
  induction recs with
  | nil => rfl
  | cons r recs ih =>
    rw [planSumBatch_cons, if_neg (h r (List.mem_cons_self _ _))]
    rw [ih (fun r' hr' => h r' (List.mem_cons_of_mem _ hr'))]
    ring

theorem planSumBranch_nil (p b : Int) : planSumBranch [] p b = 0 := rfl

theorem planSumBranch_cons (r : AllocationRecord) (recs : List AllocationRecord)
    (p b : Int) :
    planSumBranch (r :: recs) p b =
      (if r.product_id = p ∧ r.to_branch = b then r.quantity_allocated else 0) +
        planSumBranch recs p b := by
  simp only [planSumBranch, List.filter_cons]
  split_ifs with h <;> simp_all

theorem planSumBranch_append (p1 p2 : List AllocationRecord) (p b : Int) :
    planSumBranch (p1 ++ p2) p b = planSumBranch p1 p b + planSumBranch p2 p b := by
  simp [planSumBranch, List.filter_append]

theorem planSumBranch_eq_zero {recs : List AllocationRecord} {p b : Int}
    (h : ∀ r ∈ recs, ¬(r.product_id = p ∧ r.to_branch = b)) :
    planSumBranch recs p b = 0 := by
  induction recs with
  | nil => rfl
  | cons r recs ih =>
    rw [planSumBranch_cons, if_neg (h r (List.mem_cons_self _ _))]
    rw [ih (fun r' hr' => h r' (List.mem_cons_of_mem _ hr'))]
    ring

theorem planSumBranch_eq_total {recs : List AllocationRecord} {p b : Int}
    (h : ∀ r ∈ recs, r.product_id = p ∧ r.to_branch = b) :
    planSumBranch recs p b = recsTotal recs := by
  induction recs with
  | nil => rfl
  | cons r recs ih =>
    rw [planSumBranch_cons, if_pos (h r (List.mem_cons_self _ _))]
    rw [ih (fun r' hr' => h r' (List.mem_cons_of_mem _ hr'))]
    simp [recsTotal]

theorem entryRel_nil (e : Nat × StockBatch) : entryRel [] e e := by
  refine ⟨rfl, rfl, rfl, rfl, ?_, fun h => h⟩
  rw [planSumBatch_nil]; ring

theorem entryRel_comp {p1 p2 : List AllocationRecord} {e e' e'' : Nat × StockBatch}
    (h1 : entryRel p1 e e') (h2 : entryRel p2 e' e'') :
    entryRel (p1 ++ p2) e e'' := by
  obtain ⟨hi1, hp1, hb1, hx1, hs1, hn1⟩ := h1
  obtain ⟨hi2, hp2, hb2, hx2, hs2, hn2⟩ := h2
  refine ⟨hi2.trans hi1, hp2.trans hp1, hb2.trans hb1, hx2.trans hx1, ?_, ?_⟩
  · rw [planSumBatch_append, hs2, hi1, hs1]; ring
  · intro h; exact hn2 (hn1 h)

theorem trackerRel_nil (t : (Int × Int) × Int) : trackerRel [] t t := by
  refine ⟨rfl, ?_⟩
  rw [planSumBranch_nil]; ring

theorem trackerRel_comp {p1 p2 : List AllocationRecord} {t t' t'' : (Int × Int) × Int}
    (h1 : trackerRel p1 t t') (h2 : trackerRel p2 t' t'') :
    trackerRel (p1 ++ p2) t t'' := by
  obtain ⟨hi1, hs1⟩ := h1
  obtain ⟨hi2, hs2⟩ := h2
  refine ⟨hi2.trans hi1, ?_⟩
  rw [planSumBranch_append, hs2, hi1, hs1]; ring

/-- Entrywise stock accounting composes along `++` of plans. -/
theorem forall₂_entryRel_comp {p1 p2 : List AllocationRecord}
    {l1 l2 l3 : List (Nat × StockBatch)}
    (h12 : List.Forall₂ (entryRel p1) l1 l2)
    (h23 : List.Forall₂ (entryRel p2) l2 l3) :
    List.Forall₂ (entryRel (p1 ++ p2)) l1 l3 := by
  refine forall₂_trans_comp ?_ h12 h23
  intro a b c hab hbc
  exact entryRel_comp hab hbc

/-- Entrywise tracker accounting composes along `++` of plans. -/
theorem forall₂_trackerRel_comp {p1 p2 : List AllocationRecord}
    {l1 l2 l3 : List ((Int × Int) × Int)}
    (h12 : List.Forall₂ (trackerRel p1) l1 l2)
    (h23 : List.Forall₂ (trackerRel p2) l2 l3) :
    List.Forall₂ (trackerRel (p1 ++ p2)) l1 l3 := by
  refine forall₂_trans_comp ?_ h12 h23
  intro a b c hab hbc
  exact trackerRel_comp hab hbc

/-! ## Unfolding equations for `allocFromBatches` -/

theorem afb_nil (p req cwid b c target f : Int) :
    allocFromBatches p req cwid b c target [] f = ([], f, []) := rfl

theorem afb_cons_skip {p req cwid b c target : Int} {e : Nat × StockBatch}
    {l : List (Nat × StockBatch)} {f : Int}
    (h : ¬(e.2.product_id = p ∧ req ≤ e.2.expiry_date)) :
    allocFromBatches p req cwid b c target (e :: l) f =
      (e :: (allocFromBatches p req cwid b c target l f).1,
        (allocFromBatches p req cwid b c target l f).2.1,
        (allocFromBatches p req cwid b c target l f).2.2) := by
  simp only [allocFromBatches]
  rw [if_neg h]

theorem afb_cons_zero {p req cwid b c target : Int} {e : Nat × StockBatch}
    {l : List (Nat × StockBatch)} {f : Int}
    (h : e.2.product_id = p ∧ req ≤ e.2.expiry_date)
    (hz : e.2.stock_available = 0) :
    allocFromBatches p req cwid b c target (e :: l) f =
      (e :: (allocFromBatches p req cwid b c target l f).1,
        (allocFromBatches p req cwid b c target l f).2.1,
        (allocFromBatches p req cwid b c target l f).2.2) := by
  simp only [allocFromBatches]
  rw [if_pos h, if_pos hz]

theorem afb_cons_break {p req cwid b c target : Int} {e : Nat × StockBatch}
    {l : List (Nat × StockBatch)} {f : Int}
    (h : e.2.product_id = p ∧ req ≤ e.2.expiry_date)
    (hz : ¬ e.2.stock_available = 0)
    (hb : f + min (target - f) e.2.stock_available = target) :
    allocFromBatches p req cwid b c target (e :: l) f =
      ((e.1, { e.2 with stock_available :=
          e.2.stock_available - min (target - f) e.2.stock_available }) :: l,
        f + min (target - f) e.2.stock_available,
        [{ product_id := p, from_branch := cwid, to_branch := b, channel_id := c,
           quantity_allocated := min (target - f) e.2.stock_available,
           expiry_date := e.2.expiry_date, batch_idx := e.1 }]) := by
  simp only [allocFromBatches]
  rw [if_pos h, if_neg hz, if_pos hb]

theorem afb_cons_cont {p req cwid b c target : Int} {e : Nat × StockBatch}
    {l : List (Nat × StockBatch)} {f : Int}
    (h : e.2.product_id = p ∧ req ≤ e.2.expiry_date)
    (hz : ¬ e.2.stock_available = 0)
    (hb : ¬ f + min (target - f) e.2.stock_available = target) :
    allocFromBatches p req cwid b c target (e :: l) f =
      ((e.1, { e.2 with stock_available :=
          e.2.stock_available - min (target - f) e.2.stock_available }) ::
          (allocFromBatches p req cwid b c target l
            (f + min (target - f) e.2.stock_available)).1,
        (allocFromBatches p req cwid b c target l
          (f + min (target - f) e.2.stock_available)).2.1,
        { product_id := p, from_branch := cwid, to_branch := b, channel_id := c,
          quantity_allocated := min (target - f) e.2.stock_available,
          expiry_date := e.2.expiry_date, batch_idx := e.1 } ::
          (allocFromBatches p req cwid b c target l
            (f + min (target - f) e.2.stock_available)).2.2) := by
  simp only [allocFromBatches]
  rw [if_pos h, if_neg hz, if_neg hb]

/-! ## Properties of the inner batch loop -/

/-- Record bookkeeping of the batch loop: the returned
`fulfilled_for_channel` exceeds the incoming one by exactly the total of
the appended records, and every appended record carries the line's product,
branches and channel, satisfies the expiry requirement, and stems from a
batch of the working list with the line's product. -/
theorem allocFromBatches_recs (p req cwid b c target : Int) :
    ∀ (l : List (Nat × StockBatch)) (f : Int),
      (allocFromBatches p req cwid b c target l f).2.1 =
          f + recsTotal (allocFromBatches p req cwid b c target l f).2.2 ∧
        ∀ rec1 ∈ (allocFromBatches p req cwid b c target l f).2.2,
          rec1.product_id = p ∧ rec1.from_branch = cwid ∧ rec1.to_branch = b ∧
            rec1.channel_id = c ∧ req ≤ rec1.expiry_date ∧
            ∃ e ∈ l, rec1.batch_idx = e.1 ∧
              rec1.expiry_date = e.2.expiry_date ∧ e.2.product_id = p := by
  intro l
  induction l with
  | nil =>
    intro f
    rw [afb_nil]
    exact ⟨by simp [recsTotal], by intro rec1 h; cases h⟩
  | cons e l ih =>
    intro f
    by_cases h1 : e.2.product_id = p ∧ req ≤ e.2.expiry_date
    · by_cases h2 : e.2.stock_available = 0
      · rw [afb_cons_zero h1 h2]
        refine ⟨(ih f).1, ?_⟩
        intro rec1 hr
        obtain ⟨ha, hb', hc, hd, he, e0, he0, hx⟩ := (ih f).2 rec1 hr
        exact ⟨ha, hb', hc, hd, he, e0, List.mem_cons_of_mem _ he0, hx⟩
      · by_cases h3 : f + min (target - f) e.2.stock_available = target
        · rw [afb_cons_break h1 h2 h3]
          constructor
          · simp [recsTotal]
          · intro rec1 hr
            rcases List.mem_singleton.1 hr with rfl
            exact ⟨rfl, rfl, rfl, rfl, h1.2,
              e, List.mem_cons_self _ _, rfl, rfl, h1.1⟩
        · rw [afb_cons_cont h1 h2 h3]
          constructor
          · have := (ih (f + min (target - f) e.2.stock_available)).1
            rw [this]; simp [recsTotal]; ring
          · intro rec1 hr
            rcases List.mem_cons.1 hr with rfl | hr'
            · exact ⟨rfl, rfl, rfl, rfl, h1.2,
                e, List.mem_cons_self _ _, rfl, rfl, h1.1⟩
            · obtain ⟨ha, hb', hc, hd, he, e0, he0, hx⟩ :=
                (ih (f + min (target - f) e.2.stock_available)).2 rec1 hr'
              exact ⟨ha, hb', hc, hd, he, e0, List.mem_cons_of_mem _ he0, hx⟩
    · rw [afb_cons_skip h1]
      refine ⟨(ih f).1, ?_⟩
      intro rec1 hr
      obtain ⟨ha, hb', hc, hd, he, e0, he0, hx⟩ := (ih f).2 rec1 hr
      exact ⟨ha, hb', hc, hd, he, e0, List.mem_cons_of_mem _ he0, hx⟩

/-- Stock accounting of the batch loop: entrywise, the working list keeps
its index and immutable fields while `stock_available` drops by exactly the
quantity the appended records drew from that row. -/
theorem allocFromBatches_stock (p req cwid b c target : Int) :
    ∀ (l : List (Nat × StockBatch)) (f : Int), (l.map Prod.fst).Nodup →
      List.Forall₂ (entryRel (allocFromBatches p req cwid b c target l f).2.2)
        l (allocFromBatches p req cwid b c target l f).1 := by
  intro l
  induction l with
  | nil => intro f _; rw [afb_nil]; exact List.Forall₂.nil
  | cons e l ih =>
    intro f hnd
    rw [List.map_cons] at hnd
    rcases List.nodup_cons.1 hnd with ⟨hna, hnd'⟩
    have hidx : ∀ g : Int,
        ∀ rec1 ∈ (allocFromBatches p req cwid b c target l g).2.2,
          rec1.batch_idx ≠ e.1 := by
      intro g rec1 hr hcontra
      obtain ⟨_, _, _, _, _, e0, he0, hidx0, _⟩ :=
        (allocFromBatches_recs p req cwid b c target l g).2 rec1 hr
      exact hna (hcontra ▸ hidx0 ▸ List.mem_map_of_mem Prod.fst he0)
    by_cases h1 : e.2.product_id = p ∧ req ≤ e.2.expiry_date
    · by_cases h2 : e.2.stock_available = 0
      · rw [afb_cons_zero h1 h2]
        refine List.Forall₂.cons ?_ (ih f hnd')
        refine ⟨rfl, rfl, rfl, rfl, ?_, fun h => h⟩
        rw [planSumBatch_eq_zero (hidx f)]; ring
      · by_cases h3 : f + min (target - f) e.2.stock_available = target
        · rw [afb_cons_break h1 h2 h3]
          refine List.Forall₂.cons ?_ ?_
          · refine ⟨rfl, rfl, rfl, rfl, ?_, ?_⟩
            · rw [planSumBatch_cons, if_pos rfl, planSumBatch_nil]
              simp only
              ring
            · intro h
              have := min_le_right (target - f) e.2.stock_available
              simp only
              omega
          · refine List.forall₂_same.2 ?_
            intro x hx
            refine ⟨rfl, rfl, rfl, rfl, ?_, fun h => h⟩
            have hne : e.1 ≠ x.1 := by
              intro hcontra
              exact hna (hcontra ▸ List.mem_map_of_mem Prod.fst hx)
            rw [planSumBatch_cons, if_neg hne, planSumBatch_nil]; ring
        · rw [afb_cons_cont h1 h2 h3]
          refine List.Forall₂.cons ?_ ?_
          · refine ⟨rfl, rfl, rfl, rfl, ?_, ?_⟩
            · rw [planSumBatch_cons, if_pos rfl,
                planSumBatch_eq_zero
                  (hidx (f + min (target - f) e.2.stock_available))]
              simp only
              ring
            · intro h
              have := min_le_right (target - f) e.2.stock_available
              simp only
              omega
          · have htail := ih (f + min (target - f) e.2.stock_available) hnd'
            refine forall₂_imp_of_mem_left ?_ htail
            intro x hx y hrel
            obtain ⟨hi, hp, hbb, hx2, hs, hn⟩ := hrel
            refine ⟨hi, hp, hbb, hx2, ?_, hn⟩
            have hne : e.1 ≠ x.1 := by
              intro hcontra
              exact hna (hcontra ▸ List.mem_map_of_mem Prod.fst hx)
            rw [planSumBatch_cons, if_neg hne, hs]
            ring
    · rw [afb_cons_skip h1]
      refine List.Forall₂.cons ?_ (ih f hnd')
      refine ⟨rfl, rfl, rfl, rfl, ?_, fun h => h⟩
      rw [planSumBatch_eq_zero (hidx f)]; ring

/-- FEFO within one demand line: because the working list is sorted by
`(product_id, expiry_date)`, the records a single line appends carry
non-decreasing expiry dates. -/
theorem allocFromBatches_fefo (p req cwid b c target : Int) :
    ∀ (l : List (Nat × StockBatch)) (f : Int), l.Pairwise cwStockRel →
      (allocFromBatches p req cwid b c target l f).2.2.Pairwise
        (fun r1 r2 => r1.expiry_date ≤ r2.expiry_date) := by
  intro l
  induction l with
  | nil => intro f _; rw [afb_nil]; exact List.Pairwise.nil
  | cons e l ih =>
    intro f hp
    rcases List.pairwise_cons.1 hp with ⟨hhead, htail⟩
    by_cases h1 : e.2.product_id = p ∧ req ≤ e.2.expiry_date
    · by_cases h2 : e.2.stock_available = 0
      · rw [afb_cons_zero h1 h2]; exact ih f htail
      · by_cases h3 : f + min (target - f) e.2.stock_available = target
        · rw [afb_cons_break h1 h2 h3]
          exact List.pairwise_singleton _ _
        · rw [afb_cons_cont h1 h2 h3]
          refine List.pairwise_cons.2 ⟨?_, ih _ htail⟩
          intro r2 hr2
          obtain ⟨_, _, _, _, _, e2, he2, hidx2, hx2, hp2⟩ :=
            (allocFromBatches_recs p req cwid b c target l
              (f + min (target - f) e.2.stock_available)).2 r2 hr2
          have hrel := hhead e2 he2
          unfold cwStockRel lex2 at hrel
          simp only at hrel ⊢
          omega
    · rw [afb_cons_skip h1]; exact ih f htail

/-- Progress bounds for the batch loop: fulfilled only grows (given
non-negative stock) and never overshoots the target. -/
theorem allocFromBatches_bounds (p req cwid b c target : Int) :
    ∀ (l : List (Nat × StockBatch)) (f : Int), f ≤ target →
      (∀ e ∈ l, 0 ≤ e.2.stock_available) →
      f ≤ (allocFromBatches p req cwid b c target l f).2.1 ∧
        (allocFromBatches p req cwid b c target l f).2.1 ≤ target := by
  intro l
  induction l with
  | nil => intro f hf _; rw [afb_nil]; exact ⟨le_refl f, hf⟩
  | cons e l ih =>
    intro f hf hpos
    have hse : 0 ≤ e.2.stock_available := hpos e (List.mem_cons_self _ _)
    have hpos' : ∀ x ∈ l, 0 ≤ x.2.stock_available :=
      fun x hx => hpos x (List.mem_cons_of_mem _ hx)
    have hmin1 := min_le_left (target - f) e.2.stock_available
    have hmin2 := min_le_right (target - f) e.2.stock_available
    have hmin0 : 0 ≤ min (target - f) e.2.stock_available :=
      le_min (by omega) hse
    by_cases h1 : e.2.product_id = p ∧ req ≤ e.2.expiry_date
    · by_cases h2 : e.2.stock_available = 0
      · rw [afb_cons_zero h1 h2]; exact ih f hf hpos'
      · by_cases h3 : f + min (target - f) e.2.stock_available = target
        · rw [afb_cons_break h1 h2 h3]
          refine ⟨?_, ?_⟩ <;> simp only <;> omega
        · rw [afb_cons_cont h1 h2 h3]
          have := ih (f + min (target - f) e.2.stock_available) (by omega) hpos'
          refine ⟨?_, ?_⟩ <;> simp only <;> omega
    · rw [afb_cons_skip h1]; exact ih f hf hpos'

/-! ## Properties of one demand-loop iteration -/

theorem pl_skip {cwid now : Int} {rules : List (Int × Int)} {st : AllocState}
    {line : AnalysisRow}
    (h : trackerGet st.tracker (line.product_id, line.branch_id) ≤ 0) :
    processLine cwid now rules st line = (st, []) := by
  simp only [processLine]
  rw [if_pos h]

theorem pl_empty {cwid now : Int} {rules : List (Int × Int)} {st : AllocState}
    {line : AnalysisRow}
    (h : ¬ trackerGet st.tracker (line.product_id, line.branch_id) ≤ 0)
    (he : (st.stock.filter (fun e => e.2.product_id = line.product_id ∧
        now + ruleDays rules line.channel_id ≤ e.2.expiry_date)).isEmpty = true) :
    processLine cwid now rules st line = (st, []) := by
  simp only [processLine]
  rw [if_neg h, if_pos he]

theorem pl_alloc {cwid now : Int} {rules : List (Int × Int)} {st : AllocState}
    {line : AnalysisRow}
    (h : ¬ trackerGet st.tracker (line.product_id, line.branch_id) ≤ 0)
    (he : ¬ (st.stock.filter (fun e => e.2.product_id = line.product_id ∧
        now + ruleDays rules line.channel_id ≤ e.2.expiry_date)).isEmpty = true) :
    processLine cwid now rules st line =
      ({ stock := (allocFromBatches line.product_id
            (now + ruleDays rules line.channel_id) cwid line.branch_id
            line.channel_id
            (min line.forecast_quantity
              (trackerGet st.tracker (line.product_id, line.branch_id)))
            st.stock 0).1,
         tracker := trackerSub st.tracker (line.product_id, line.branch_id)
           (allocFromBatches line.product_id
              (now + ruleDays rules line.channel_id) cwid line.branch_id
              line.channel_id
              (min line.forecast_quantity
                (trackerGet st.tracker (line.product_id, line.branch_id)))
              st.stock 0).2.1 },
       (allocFromBatches line.product_id
          (now + ruleDays rules line.channel_id) cwid line.branch_id
          line.channel_id
          (min line.forecast_quantity
            (trackerGet st.tracker (line.product_id, line.branch_id)))
          st.stock 0).2.2) := by
  simp only [processLine]
  rw [if_neg h, if_neg (by simpa using he)]

/-- Stock accounting of one iteration. -/
theorem processLine_stock (cwid now : Int) (rules : List (Int × Int))
    (st : AllocState) (line : AnalysisRow)
    (hnd : (st.stock.map Prod.fst).Nodup) :
    List.Forall₂ (entryRel (processLine cwid now rules st line).2)
      st.stock (processLine cwid now rules st line).1.stock := by
  by_cases h : trackerGet st.tracker (line.product_id, line.branch_id) ≤ 0
  · rw [pl_skip h]
    exact List.forall₂_same.2 (fun e _ => entryRel_nil e)
  · by_cases he : (st.stock.filter (fun e => e.2.product_id = line.product_id ∧
        now + ruleDays rules line.channel_id ≤ e.2.expiry_date)).isEmpty = true
    · rw [pl_empty h he]
      exact List.forall₂_same.2 (fun e _ => entryRel_nil e)
    · rw [pl_alloc h he]
      exact allocFromBatches_stock _ _ _ _ _ _ st.stock 0 hnd

/-- Tracker accounting of one iteration. -/
theorem processLine_tracker (cwid now : Int) (rules : List (Int × Int))
    (st : AllocState) (line : AnalysisRow) :
    List.Forall₂ (trackerRel (processLine cwid now rules st line).2)
      st.tracker (processLine cwid now rules st line).1.tracker := by
  by_cases h : trackerGet st.tracker (line.product_id, line.branch_id) ≤ 0
  · rw [pl_skip h]
    exact List.forall₂_same.2 (fun t _ => trackerRel_nil t)
  · by_cases he : (st.stock.filter (fun e => e.2.product_id = line.product_id ∧
        now + ruleDays rules line.channel_id ≤ e.2.expiry_date)).isEmpty = true
    · rw [pl_empty h he]
      exact List.forall₂_same.2 (fun t _ => trackerRel_nil t)
    · rw [pl_alloc h he]
      simp only [trackerSub]
      rw [List.forall₂_map_right_iff]
      refine List.forall₂_same.2 ?_
      intro t _
      have hrecs := allocFromBatches_recs line.product_id
        (now + ruleDays rules line.channel_id) cwid line.branch_id
        line.channel_id
        (min line.forecast_quantity
          (trackerGet st.tracker (line.product_id, line.branch_id))) st.stock 0
      by_cases hk : t.1 = (line.product_id, line.branch_id)
      · rw [if_pos hk]
        refine ⟨rfl, ?_⟩
        have hall : ∀ r ∈ (allocFromBatches line.product_id
            (now + ruleDays rules line.channel_id) cwid line.branch_id
            line.channel_id
            (min line.forecast_quantity
              (trackerGet st.tracker (line.product_id, line.branch_id)))
            st.stock 0).2.2,
            r.product_id = t.1.1 ∧ r.to_branch = t.1.2 := by
          intro r hr
          obtain ⟨hp, _, hb, _⟩ := hrecs.2 r hr
          rw [hk]
          exact ⟨hp, hb⟩
        rw [planSumBranch_eq_total hall]
        have := hrecs.1
        simp only at this ⊢
        omega
      · rw [if_neg hk]
        refine ⟨rfl, ?_⟩
        have hnone : ∀ r ∈ (allocFromBatches line.product_id
            (now + ruleDays rules line.channel_id) cwid line.branch_id
            line.channel_id
            (min line.forecast_quantity
              (trackerGet st.tracker (line.product_id, line.branch_id)))
            st.stock 0).2.2,
            ¬(r.product_id = t.1.1 ∧ r.to_branch = t.1.2) := by
          intro r hr hcontra
          obtain ⟨hp, _, hb, _⟩ := hrecs.2 r hr
          apply hk
          have : t.1 = (r.product_id, r.to_branch) := by
            cases t1 : t.1 with
            | mk a bb =>
              rw [t1] at hcontra
              simp only at hcontra
              rw [hcontra.1, hcontra.2]
          rw [this, hp, hb]
        rw [planSumBranch_eq_zero hnone]
        ring

/-- Field facts about the records of one iteration. -/
theorem processLine_recs (cwid now : Int) (rules : List (Int × Int))
    (st : AllocState) (line : AnalysisRow) :
    ∀ rec1 ∈ (processLine cwid now rules st line).2,
      rec1.product_id = line.product_id ∧ rec1.from_branch = cwid ∧
        rec1.to_branch = line.branch_id ∧ rec1.channel_id = line.channel_id ∧
        now + ruleDays rules line.channel_id ≤ rec1.expiry_date := by
  by_cases h : trackerGet st.tracker (line.product_id, line.branch_id) ≤ 0
  · rw [pl_skip h]; intro rec1 hr; cases hr
  · by_cases he : (st.stock.filter (fun e => e.2.product_id = line.product_id ∧
        now + ruleDays rules line.channel_id ≤ e.2.expiry_date)).isEmpty = true
    · rw [pl_empty h he]; intro rec1 hr; cases hr
    · rw [pl_alloc h he]
      intro rec1 hr
      obtain ⟨hp, hf, hb, hc, hx, _⟩ := (allocFromBatches_recs _ _ _ _ _ _
        st.stock 0).2 rec1 hr
      exact ⟨hp, hf, hb, hc, hx⟩

/-- FEFO within one iteration. -/
theorem processLine_fefo (cwid now : Int) (rules : List (Int × Int))
    (st : AllocState) (line : AnalysisRow)
    (hp : st.stock.Pairwise cwStockRel) :
    (processLine cwid now rules st line).2.Pairwise
      (fun r1 r2 => r1.expiry_date ≤ r2.expiry_date) := by
  by_cases h : trackerGet st.tracker (line.product_id, line.branch_id) ≤ 0
  · rw [pl_skip h]; exact List.Pairwise.nil
  · by_cases he : (st.stock.filter (fun e => e.2.product_id = line.product_id ∧
        now + ruleDays rules line.channel_id ≤ e.2.expiry_date)).isEmpty = true
    · rw [pl_empty h he]; exact List.Pairwise.nil
    · rw [pl_alloc h he]
      exact allocFromBatches_fefo _ _ _ _ _ _ st.stock 0 hp

/-- With distinct keys, `trackerGet` reads off a member's value. -/
theorem trackerGet_eq_of_mem {tr : List ((Int × Int) × Int)}
    (hnd : (tr.map Prod.fst).Nodup) {t : (Int × Int) × Int} (ht : t ∈ tr) :
    trackerGet tr t.1 = t.2 := by
  have hsome : (tr.find? (fun s => s.1 = t.1)).isSome :=
    List.find?_isSome.2 ⟨t, ht, by simp⟩
  obtain ⟨u, hu⟩ := Option.isSome_iff_exists.1 hsome
  have humem := List.mem_of_find?_eq_some hu
  have hueq : u.1 = t.1 := by
    have := List.find?_some hu
    simpa using this
  have : u = t := eq_of_mem_of_fst_eq hnd humem ht hueq
  unfold trackerGet
  rw [hu, this]
  rfl

/-- One iteration keeps tracker values non-negative. -/
theorem processLine_tracker_nonneg (cwid now : Int) (rules : List (Int × Int))
    (st : AllocState) (line : AnalysisRow)
    (hndk : (st.tracker.map Prod.fst).Nodup)
    (htv : ∀ t ∈ st.tracker, 0 ≤ t.2)
    (hsv : ∀ e ∈ st.stock, 0 ≤ e.2.stock_available)
    (hfq : 0 ≤ line.forecast_quantity) :
    ∀ t' ∈ (processLine cwid now rules st line).1.tracker, 0 ≤ t'.2 := by
  by_cases h : trackerGet st.tracker (line.product_id, line.branch_id) ≤ 0
  · rw [pl_skip h]; exact htv
  · by_cases he : (st.stock.filter (fun e => e.2.product_id = line.product_id ∧
        now + ruleDays rules line.channel_id ≤ e.2.expiry_date)).isEmpty = true
    · rw [pl_empty h he]; exact htv
    · rw [pl_alloc h he]
      intro t' ht'
      simp only [trackerSub, List.mem_map] at ht'
      obtain ⟨t, ht, rfl⟩ := ht'
      have hbnds := allocFromBatches_bounds line.product_id
        (now + ruleDays rules line.channel_id) cwid line.branch_id
        line.channel_id
        (min line.forecast_quantity
          (trackerGet st.tracker (line.product_id, line.branch_id)))
        st.stock 0
        (le_min hfq (by omega)) hsv
      by_cases hk : t.1 = (line.product_id, line.branch_id)
      · rw [if_pos hk]
        have hget : trackerGet st.tracker (line.product_id, line.branch_id) = t.2 := by
          rw [← hk]; exact trackerGet_eq_of_mem hndk ht
        have hmin := min_le_right line.forecast_quantity
          (trackerGet st.tracker (line.product_id, line.branch_id))
        simp only
        omega
      · rw [if_neg hk]
        exact htv t ht

/-- One iteration preserves the index list of the working stock. -/
theorem processLine_stock_fst (cwid now : Int) (rules : List (Int × Int))
    (st : AllocState) (line : AnalysisRow)
    (hnd : (st.stock.map Prod.fst).Nodup) :
    (processLine cwid now rules st line).1.stock.map Prod.fst =
      st.stock.map Prod.fst :=
  forall₂_map_eq (fun _ _ hrel => hrel.1)
    (processLine_stock cwid now rules st line hnd)

/-- One iteration preserves the key list of the tracker. -/
theorem processLine_tracker_fst (cwid now : Int) (rules : List (Int × Int))
    (st : AllocState) (line : AnalysisRow) :
    (processLine cwid now rules st line).1.tracker.map Prod.fst =
      st.tracker.map Prod.fst :=
  forall₂_map_eq (fun _ _ hrel => hrel.1)
    (processLine_tracker cwid now rules st line)

/-- One iteration keeps the working stock sorted by `(product, expiry)`. -/
theorem processLine_stock_pairwise (cwid now : Int) (rules : List (Int × Int))
    (st : AllocState) (line : AnalysisRow)
    (hnd : (st.stock.map Prod.fst).Nodup)
    (hp : st.stock.Pairwise cwStockRel) :
    (processLine cwid now rules st line).1.stock.Pairwise cwStockRel := by
  refine forall₂_pairwise_transfer ?_
    (processLine_stock cwid now rules st line hnd) hp
  intro a a' b b' ha hb hr
  unfold cwStockRel lex2 at hr ⊢
  rw [ha.2.1, ha.2.2.2.1, hb.2.1, hb.2.2.2.1]
  exact hr

/-- One iteration keeps the working-stock quantities non-negative. -/
theorem processLine_stock_nonneg (cwid now : Int) (rules : List (Int × Int))
    (st : AllocState) (line : AnalysisRow)
    (hnd : (st.stock.map Prod.fst).Nodup)
    (hsv : ∀ e ∈ st.stock, 0 ≤ e.2.stock_available) :
    ∀ e' ∈ (processLine cwid now rules st line).1.stock,
      0 ≤ e'.2.stock_available := by
  intro e' he'
  obtain ⟨e, he, hrel⟩ :=
    forall₂_exists_right (processLine_stock cwid now rules st line hnd) he'
  exact hrel.2.2.2.2.2 (hsv e he)

/-! ## Properties of the whole demand loop -/

theorem rl_nil (cwid now : Int) (rules : List (Int × Int)) (st : AllocState) :
    runLines cwid now rules st [] = (st, []) := rfl

theorem rl_cons (cwid now : Int) (rules : List (Int × Int)) (st : AllocState)
    (line : AnalysisRow) (rest : List AnalysisRow) :
    runLines cwid now rules st (line :: rest) =
      ((runLines cwid now rules (processLine cwid now rules st line).1 rest).1,
        (processLine cwid now rules st line).2 ::
          (runLines cwid now rules (processLine cwid now rules st line).1 rest).2) :=
  rfl

/-- Stock accounting across the whole loop. -/
theorem runLines_stock (cwid now : Int) (rules : List (Int × Int)) :
    ∀ (lines : List AnalysisRow) (st : AllocState),
      (st.stock.map Prod.fst).Nodup →
      List.Forall₂ (entryRel (runLines cwid now rules st lines).2.flatten)
        st.stock (runLines cwid now rules st lines).1.stock := by
  intro lines
  induction lines with
  | nil =>
    intro st _
    rw [rl_nil]
    exact List.forall₂_same.2 (fun e _ => entryRel_nil e)
  | cons line rest ih =>
    intro st hnd
    rw [rl_cons]
    have h1 := processLine_stock cwid now rules st line hnd
    have hnd1 : ((processLine cwid now rules st line).1.stock.map Prod.fst).Nodup := by
      rw [processLine_stock_fst cwid now rules st line hnd]; exact hnd
    have h2 := ih (processLine cwid now rules st line).1 hnd1
    simp only [List.flatten_cons]
    exact forall₂_entryRel_comp h1 h2

/-- Tracker accounting across the whole loop. -/
theorem runLines_tracker (cwid now : Int) (rules : List (Int × Int)) :
    ∀ (lines : List AnalysisRow) (st : AllocState),
      List.Forall₂ (trackerRel (runLines cwid now rules st lines).2.flatten)
        st.tracker (runLines cwid now rules st lines).1.tracker := by
  intro lines
  induction lines with
  | nil =>
    intro st
    rw [rl_nil]
    exact List.forall₂_same.2 (fun t _ => trackerRel_nil t)
  | cons line rest ih =>
    intro st
    rw [rl_cons]
    have h1 := processLine_tracker cwid now rules st line
    have h2 := ih (processLine cwid now rules st line).1
    simp only [List.flatten_cons]
    exact forall₂_trackerRel_comp h1 h2

/-- The loop preserves the tracker's key list. -/
theorem runLines_tracker_fst (cwid now : Int) (rules : List (Int × Int))
    (lines : List AnalysisRow) (st : AllocState) :
    (runLines cwid now rules st lines).1.tracker.map Prod.fst =
      st.tracker.map Prod.fst :=
  forall₂_map_eq (fun _ _ hrel => hrel.1) (runLines_tracker cwid now rules lines st)

/-- The loop preserves the working stock's index list. -/
theorem runLines_stock_fst (cwid now : Int) (rules : List (Int × Int))
    (lines : List AnalysisRow) (st : AllocState)
    (hnd : (st.stock.map Prod.fst).Nodup) :
    (runLines cwid now rules st lines).1.stock.map Prod.fst =
      st.stock.map Prod.fst :=
  forall₂_map_eq (fun _ _ hrel => hrel.1) (runLines_stock cwid now rules lines st hnd)

/-- Every record of the run satisfies its channel's expiry rule. -/
theorem runLines_recs (cwid now : Int) (rules : List (Int × Int)) :
    ∀ (lines : List AnalysisRow) (st : AllocState),
      ∀ rec1 ∈ (runLines cwid now rules st lines).2.flatten,
        now + ruleDays rules rec1.channel_id ≤ rec1.expiry_date := by
  intro lines
  induction lines with
  | nil => intro st rec1 hr; rw [rl_nil] at hr; cases hr
  | cons line rest ih =>
    intro st rec1 hr
    rw [rl_cons] at hr
    simp only [List.flatten_cons, List.mem_append] at hr
    rcases hr with hr | hr
    · obtain ⟨_, _, _, hc, hx⟩ := processLine_recs cwid now rules st line rec1 hr
      rw [hc]
      exact hx
    · exact ih (processLine cwid now rules st line).1 rec1 hr

/-- Every per-line block of the run is FEFO-ordered. -/
theorem runLines_fefo (cwid now : Int) (rules : List (Int × Int)) :
    ∀ (lines : List AnalysisRow) (st : AllocState),
      (st.stock.map Prod.fst).Nodup → st.stock.Pairwise cwStockRel →
      ∀ blk ∈ (runLines cwid now rules st lines).2,
        blk.Pairwise (fun r1 r2 => r1.expiry_date ≤ r2.expiry_date) := by
  intro lines
  induction lines with
  | nil => intro st _ _ blk hb; rw [rl_nil] at hb; cases hb
  | cons line rest ih =>
    intro st hnd hp blk hb
    rw [rl_cons] at hb
    rcases List.mem_cons.1 hb with rfl | hb'
    · exact processLine_fefo cwid now rules st line hp
    · have hnd1 : ((processLine cwid now rules st line).1.stock.map Prod.fst).Nodup := by
        rw [processLine_stock_fst cwid now rules st line hnd]; exact hnd
      exact ih (processLine cwid now rules st line).1 hnd1
        (processLine_stock_pairwise cwid now rules st line hnd hp) blk hb'

/-- The loop keeps tracker values non-negative, provided every processed
line's forecast quantity is non-negative. -/
theorem runLines_tracker_nonneg (cwid now : Int) (rules : List (Int × Int)) :
    ∀ (lines : List AnalysisRow) (st : AllocState),
      (st.tracker.map Prod.fst).Nodup → (st.stock.map Prod.fst).Nodup →
      (∀ t ∈ st.tracker, 0 ≤ t.2) →
      (∀ e ∈ st.stock, 0 ≤ e.2.stock_available) →
      (∀ line ∈ lines, 0 ≤ line.forecast_quantity) →
      ∀ t ∈ (runLines cwid now rules st lines).1.tracker, 0 ≤ t.2 := by
  intro lines
  induction lines with
  | nil => intro st _ _ htv _ _; rw [rl_nil]; exact htv
  | cons line rest ih =>
    intro st hndk hnd htv hsv hfq
    rw [rl_cons]
    have hfq0 : 0 ≤ line.forecast_quantity := hfq line (List.mem_cons_self _ _)
    have hndk1 : ((processLine cwid now rules st line).1.tracker.map Prod.fst).Nodup := by
      rw [processLine_tracker_fst cwid now rules st line]; exact hndk
    have hnd1 : ((processLine cwid now rules st line).1.stock.map Prod.fst).Nodup := by
      rw [processLine_stock_fst cwid now rules st line hnd]; exact hnd
    exact ih (processLine cwid now rules st line).1 hndk1 hnd1
      (processLine_tracker_nonneg cwid now rules st line hndk htv hsv hfq0)
      (processLine_stock_nonneg cwid now rules st line hnd hsv)
      (fun l hl => hfq l (List.mem_cons_of_mem _ hl))

/-! ## Facts about the analysis table -/

theorem allocationStatus_needed (x : Int) :
    allocationStatus x = "Allocation Needed" ↔ 0 < x := by
  unfold allocationStatus
  split_ifs with h1 h2
  · simpa using h1
  · constructor
    · intro h; exact absurd h (by decide)
    · intro h; omega
  · constructor
    · intro h; exact absurd h (by decide)
    · intro h; omega

theorem allocationStatus_no (x : Int) :
    allocationStatus x = "No Allocation Needed" ↔ x = 0 := by
  unfold allocationStatus
  split_ifs with h1 h2
  · constructor
    · intro h; exact absurd h (by decide)
    · intro h; omega
  · simpa using h2
  · constructor
    · intro h; exact absurd h (by decide)
    · intro h; omega

theorem allocationStatus_over (x : Int) :
    allocationStatus x = "Overstock" ↔ x < 0 := by
  unfold allocationStatus
  split_ifs with h1 h2
  · constructor
    · intro h; exact absurd h (by decide)
    · intro h; omega
  · constructor
    · intro h; exact absurd h (by decide)
    · intro h; omega
  · constructor
    · intro _; omega
    · intro _; rfl

/-- Every analysis row's derived columns are the branch- or channel-level
aggregates at the row's own key. -/
theorem runAnalysis_mem_fields {f : List ForecastRecord} {s : List StockBatch}
    {cw : Int} {row : AnalysisRow} (h : row ∈ runAnalysis f s cw) :
    row.forecast_quantity =
        channelForecastSum f row.product_id row.branch_id row.channel_id ∧
      row.total_stock_available = branchStockSum s cw row.product_id row.branch_id ∧
      row.total_forecast_at_branch = branchForecastSum f row.product_id row.branch_id ∧
      row.branch_net_need = netNeed f s cw row.product_id row.branch_id ∧
      row.allocation_status =
        allocationStatus (netNeed f s cw row.product_id row.branch_id) := by
  obtain ⟨k, _, rfl⟩ := List.mem_map.1 h
  exact ⟨rfl, rfl, rfl, rfl, rfl⟩

/-- A key present in the forecast produces its analysis row. -/
theorem runAnalysis_mem_of_key {f : List ForecastRecord} {s : List StockBatch}
    {cw p b c : Int}
    (h : ∃ r ∈ f, r.product_id = p ∧ r.branch_id = b ∧ r.channel_id = c) :
    mkAnalysisRow f s cw (p, b, c) ∈ runAnalysis f s cw := by
  refine List.mem_map_of_mem _ ?_
  unfold forecastKeys
  rw [List.mem_insertionSort, List.mem_dedup]
  obtain ⟨r, hr, h1, h2, h3⟩ := h
  refine List.mem_map.2 ⟨r, hr, ?_⟩
  rw [h1, h2, h3]

theorem demandLines_mem {analysis : List AnalysisRow} {line : AnalysisRow} :
    line ∈ demandLines analysis ↔
      line ∈ analysis ∧ line.allocation_status = "Allocation Needed" := by
  unfold demandLines
  rw [List.mem_filter]
  simp

/-- Demand lines of a real analysis table have positive branch-level need. -/
theorem demand_need_pos {f : List ForecastRecord} {s : List StockBatch}
    {cw : Int} {line : AnalysisRow}
    (h : line ∈ demandLines (runAnalysis f s cw)) : 0 < line.branch_net_need := by
  rcases demandLines_mem.1 h with ⟨hmem, hstat⟩
  have hf := runAnalysis_mem_fields hmem
  rw [hf.2.2.2.1]
  rw [hf.2.2.2.2] at hstat
  exact (allocationStatus_needed _).1 hstat

/-! ## Facts about the branch-need tracker -/

theorem trackerKeys_nodup (dl : List AnalysisRow) : (trackerKeys dl).Nodup :=
  (List.perm_insertionSort _ _).nodup_iff.2 (List.nodup_dedup _)

theorem trackerKeys_mem {dl : List AnalysisRow} {k : Int × Int} :
    k ∈ trackerKeys dl ↔
      ∃ line ∈ dl, line.product_id = k.1 ∧ line.branch_id = k.2 := by
  unfold trackerKeys
  rw [List.mem_insertionSort, List.mem_dedup, List.mem_map]
  constructor
  · rintro ⟨line, hl, rfl⟩
    exact ⟨line, hl, rfl, rfl⟩
  · rintro ⟨line, hl, h1, h2⟩
    refine ⟨line, hl, ?_⟩
    rw [h1, h2]

theorem initTracker_fst (dl : List AnalysisRow) :
    (initTracker dl).map Prod.fst = trackerKeys dl := by
  unfold initTracker
  rw [List.map_map]
  exact List.map_id'' (fun x => rfl) _

theorem initTracker_mem {dl : List AnalysisRow} {t : (Int × Int) × Int} :
    t ∈ initTracker dl ↔ t.1 ∈ trackerKeys dl ∧ t.2 = firstNeed dl t.1 := by
  constructor
  · intro h
    obtain ⟨k, hk, rfl⟩ := List.mem_map.1 h
    exact ⟨hk, rfl⟩
  · rintro ⟨hk, hv⟩
    refine List.mem_map.2 ⟨t.1, hk, ?_⟩
    rw [← hv]

/-- Any analysis row found by the reconciliation lookup carries the
branch-level net need of its key. -/
theorem find?_analysis_need {f : List ForecastRecord} {s : List StockBatch}
    {cw p b : Int} {row : AnalysisRow}
    (h : (runAnalysis f s cw).find?
        (fun r => r.product_id = p ∧ r.branch_id = b) = some row) :
    row.branch_net_need = netNeed f s cw p b := by
  have hmem := List.mem_of_find?_eq_some h
  have hpred := List.find?_some h
  simp only [decide_eq_true_eq] at hpred
  have hfields := runAnalysis_mem_fields hmem
  rw [hfields.2.2.2.1, hpred.1, hpred.2]

/-- `groupby(...).first()` over demand lines of a real analysis table reads
off the branch-level net need. -/
theorem firstNeed_eq {f : List ForecastRecord} {s : List StockBatch} {cw : Int}
    {dl : List AnalysisRow} (hsub : ∀ r ∈ dl, r ∈ runAnalysis f s cw)
    {k : Int × Int}
    (hk : ∃ line ∈ dl, line.product_id = k.1 ∧ line.branch_id = k.2) :
    firstNeed dl k = netNeed f s cw k.1 k.2 := by
  unfold firstNeed
  obtain ⟨line, hl, h1, h2⟩ := hk
  have hsome : (dl.find? (fun r => r.product_id = k.1 ∧ r.branch_id = k.2)).isSome :=
    List.find?_isSome.2 ⟨line, hl, by simp [h1, h2]⟩
  obtain ⟨row, hrow⟩ := Option.isSome_iff_exists.1 hsome
  have hmem := List.mem_of_find?_eq_some hrow
  have hpred := List.find?_some hrow
  simp only [decide_eq_true_eq] at hpred
  have hfields := runAnalysis_mem_fields (hsub row hmem)
  rw [hrow]
  simp only [Option.map_some', Option.getD_some]
  rw [hfields.2.2.2.1, hpred.1, hpred.2]

/-! ## Facts about the reconciliation loop -/

/-- The `.iloc[0]` lookup cannot fail when every tracker key has a matching
analysis row. -/
theorem unfulfilledList_isSome {analysis : List AnalysisRow} :
    ∀ {tr : List ((Int × Int) × Int)},
      (∀ t ∈ tr, ∃ row ∈ analysis,
        row.product_id = t.1.1 ∧ row.branch_id = t.1.2) →
      (unfulfilledList analysis tr).isSome := by
  intro tr
  induction tr with
  | nil => intro _; rfl
  | cons t rest ih =>
    intro h
    obtain ⟨k, remaining⟩ := t
    simp only [unfulfilledList]
    split_ifs with hpos
    · obtain ⟨row, hrow, h1, h2⟩ := h (k, remaining) (List.mem_cons_self _ _)
      have hsome : (analysis.find?
          (fun r => r.product_id = k.1 ∧ r.branch_id = k.2)).isSome :=
        List.find?_isSome.2 ⟨row, hrow, by simp [h1, h2]⟩
      obtain ⟨row0, hrow0⟩ := Option.isSome_iff_exists.1 hsome
      rw [hrow0]
      rw [Option.isSome_map']
      exact ih (fun t' ht' => h t' (List.mem_cons_of_mem _ ht'))
    · exact ih (fun t' ht' => h t' (List.mem_cons_of_mem _ ht'))

/-- Every emitted unfulfilled row comes from a positive tracker entry and
copies the `.iloc[0]` row's need. -/
theorem unfulfilledList_mem {analysis : List AnalysisRow} :
    ∀ {tr : List ((Int × Int) × Int)} {uf : List UnfulfilledDemand},
      unfulfilledList analysis tr = some uf → ∀ u ∈ uf,
      ∃ t ∈ tr, 0 < t.2 ∧ u.product_id = t.1.1 ∧ u.branch_id = t.1.2 ∧
        u.unfulfilled = t.2 ∧
        ∃ row, analysis.find?
            (fun r => r.product_id = t.1.1 ∧ r.branch_id = t.1.2) = some row ∧
          u.needed = row.branch_net_need ∧
          u.fulfilled = row.branch_net_need - t.2 := by
  intro tr
  induction tr with
  | nil =>
    intro uf heq u hu
    simp only [unfulfilledList, Option.some.injEq] at heq
    rw [← heq] at hu
    cases hu
  | cons t rest ih =>
    intro uf heq u hu
    obtain ⟨k, remaining⟩ := t
    simp only [unfulfilledList] at heq
    split_ifs at heq with hpos
    · cases hfind : analysis.find?
          (fun r => r.product_id = k.1 ∧ r.branch_id = k.2) with
      | none => rw [hfind] at heq; cases heq
      | some row =>
        rw [hfind] at heq
        rw [Option.map_eq_some'] at heq
        obtain ⟨tl, htl, rfl⟩ := heq
        rcases List.mem_cons.1 hu with rfl | hu'
        · exact ⟨(k, remaining), List.mem_cons_self _ _, hpos, rfl, rfl, rfl,
            row, hfind, rfl, rfl⟩
        · obtain ⟨t', ht', rest'⟩ := ih htl u hu'
          exact ⟨t', List.mem_cons_of_mem _ ht', rest'⟩
    · obtain ⟨t', ht', rest'⟩ := ih heq u hu
      exact ⟨t', List.mem_cons_of_mem _ ht', rest'⟩

/-- Every positive tracker entry is reported as an unfulfilled row. -/
theorem unfulfilledList_complete {analysis : List AnalysisRow} :
    ∀ {tr : List ((Int × Int) × Int)} {uf : List UnfulfilledDemand},
      unfulfilledList analysis tr = some uf → ∀ t ∈ tr, 0 < t.2 →
      ∃ u ∈ uf, u.product_id = t.1.1 ∧ u.branch_id = t.1.2 ∧
        u.unfulfilled = t.2 ∧
        ∃ row, analysis.find?
            (fun r => r.product_id = t.1.1 ∧ r.branch_id = t.1.2) = some row ∧
          u.needed = row.branch_net_need ∧
          u.fulfilled = row.branch_net_need - t.2 := by
  intro tr
  induction tr with
  | nil => intro uf _ t ht; cases ht
  | cons t0 rest ih =>
    intro uf heq t ht hpos0
    obtain ⟨k, remaining⟩ := t0
    simp only [unfulfilledList] at heq
    split_ifs at heq with hpos
    · cases hfind : analysis.find?
          (fun r => r.product_id = k.1 ∧ r.branch_id = k.2) with
      | none => rw [hfind] at heq; cases heq
      | some row =>
        rw [hfind] at heq
        rw [Option.map_eq_some'] at heq
        obtain ⟨tl, htl, rfl⟩ := heq
        rcases List.mem_cons.1 ht with rfl | ht'
        · exact ⟨_, List.mem_cons_self _ _, rfl, rfl, rfl, row, hfind, rfl, rfl⟩
        · obtain ⟨u, hu, rest'⟩ := ih htl t ht' hpos0
          exact ⟨u, List.mem_cons_of_mem _ hu, rest'⟩
    · rcases List.mem_cons.1 ht with rfl | ht'
      · exact absurd hpos0 hpos
      · exact ih heq t ht' hpos0

/-- Unfolding `run_allocation` into its loop and reconciliation parts. -/
theorem runAllocation_eq (analysis : List AnalysisRow) (stock : List StockBatch)
    (cw : Int) (pc pb : List Int) (rules : List (Int × Int)) (now : Int) :
    runAllocation analysis stock cw pc pb rules now =
      (unfulfilledList analysis
        (runLines cw now rules (initState analysis stock cw)
          (prioritizedDemand pc pb analysis)).1.tracker).map (fun uf =>
        { plan := (runLines cw now rules (initState analysis stock cw)
            (prioritizedDemand pc pb analysis)).2.flatten,
          unfulfilled := uf,
          remaining := (runLines cw now rules (initState analysis stock cw)
            (prioritizedDemand pc pb analysis)).1.stock.filter
              (fun e => 0 < e.2.stock_available) }) := rfl

/-! ## Remaining preparation facts -/

theorem mem_enum_snd {α : Type} {l : List α} {e : Nat × α} (h : e ∈ l.enum) :
    e.2 ∈ l := by
  induction l generalizing e with
  | nil => cases h
  | cons a l ih =>
    rcases e with ⟨i, x⟩
    rw [List.mk_mem_enum_iff_getElem?] at h
    rcases i with _ | j
    · simp at h
      rw [h]
      exact List.mem_cons_self _ _
    · simp at h
      have hjx : ((j, x) : Nat × α) ∈ l.enum := by
        rw [List.mk_mem_enum_iff_getElem?]
        exact h
      exact List.mem_cons_of_mem _ (@ih (j, x) hjx)

theorem cwStockSorted_batch_mem {stock : List StockBatch} {cw : Int}
    {e : Nat × StockBatch} (h : e ∈ cwStockSorted stock cw) : e.2 ∈ stock :=
  mem_enum_snd (cwStockSorted_mem.1 h).1

theorem channelForecastSum_nonneg {f : List ForecastRecord}
    (hf : ∀ r ∈ f, 0 ≤ r.forecast_quantity) (p b c : Int) :
    0 ≤ channelForecastSum f p b c := by
  apply List.sum_nonneg
  intro x hx
  obtain ⟨r, hr, rfl⟩ := List.mem_map.1 hx
  exact hf r (List.mem_of_mem_filter hr)

/-- Every batch of the initial working copy has non-negative stock when the
input does. -/
theorem cwStockSorted_nonneg {stock : List StockBatch} {cw : Int}
    (hs : ∀ b ∈ stock, 0 ≤ b.stock_available) :
    ∀ e ∈ cwStockSorted stock cw, 0 ≤ e.2.stock_available :=
  fun e he => hs e.2 (cwStockSorted_batch_mem he)

/-- The initial tracker of a real analysis table holds the (positive)
branch-level net needs. -/
theorem initTracker_netNeed {f : List ForecastRecord} {s : List StockBatch}
    {cw : Int} {t : (Int × Int) × Int}
    (ht : t ∈ initTracker (demandLines (runAnalysis f s cw))) :
    t.2 = netNeed f s cw t.1.1 t.1.2 ∧ 0 < t.2 := by
  obtain ⟨hk, hv⟩ := initTracker_mem.1 ht
  obtain ⟨line, hl, h1, h2⟩ := trackerKeys_mem.1 hk
  have hfn : firstNeed (demandLines (runAnalysis f s cw)) t.1 =
      netNeed f s cw t.1.1 t.1.2 :=
    firstNeed_eq (fun r hr => (demandLines_mem.1 hr).1) ⟨line, hl, h1, h2⟩
  have hlineneed : line.branch_net_need = netNeed f s cw t.1.1 t.1.2 := by
    have hfields := runAnalysis_mem_fields (demandLines_mem.1 hl).1
    rw [hfields.2.2.2.1, h1, h2]
  refine ⟨hv.trans hfn, ?_⟩
  rw [hv, hfn, ← hlineneed]
  exact demand_need_pos hl

/-- Every line of the prioritized demand frame of a real analysis table has
non-negative forecast quantity. -/
theorem prioritized_forecast_nonneg {f : List ForecastRecord}
    {s : List StockBatch} {cw : Int} {pc pb : List Int}
    (hf : ∀ r ∈ f, 0 ≤ r.forecast_quantity) :
    ∀ line ∈ prioritizedDemand pc pb (runAnalysis f s cw),
      0 ≤ line.forecast_quantity := by
  intro line hl
  rw [prioritizedDemand, List.mem_insertionSort] at hl
  have hfields := runAnalysis_mem_fields (demandLines_mem.1 hl).1
  rw [hfields.1]
  exact channelForecastSum_nonneg hf _ _ _

/-- Structure extensionality for stock batches. -/
theorem stockBatch_ext {a b : StockBatch} (h1 : a.product_id = b.product_id)
    (h2 : a.branch_id = b.branch_id) (h3 : a.stock_available = b.stock_available)
    (h4 : a.expiry_date = b.expiry_date) : a = b := by
  cases a; cases b; simp_all

/-! ## The spec's testable properties -/

/-- C8: in the output of `run_analysis`, every pair of rows sharing
`(product_id, branch_id)` has identical `total_stock_available`,
`total_forecast_at_branch`, `branch_net_need` and `allocation_status` —
these are branch-level quantities broadcast across channel rows. -/
theorem branch_broadcast_invariant (f : List ForecastRecord)
    (s : List StockBatch) (cw : Int) (r1 r2 : AnalysisRow)
    (h1 : r1 ∈ runAnalysis f s cw) (h2 : r2 ∈ runAnalysis f s cw)
    (hp : r1.product_id = r2.product_id) (hb : r1.branch_id = r2.branch_id) :
    r1.total_stock_available = r2.total_stock_available ∧
      r1.total_forecast_at_branch = r2.total_forecast_at_branch ∧
      r1.branch_net_need = r2.branch_net_need ∧
      r1.allocation_status = r2.allocation_status := by
  have hf1 := runAnalysis_mem_fields h1
  have hf2 := runAnalysis_mem_fields h2
  refine ⟨?_, ?_, ?_, ?_⟩
  · rw [hf1.2.1, hf2.2.1, hp, hb]
  · rw [hf1.2.2.1, hf2.2.2.1, hp, hb]
  · rw [hf1.2.2.2.1, hf2.2.2.2.1, hp, hb]
  · rw [hf1.2.2.2.2, hf2.2.2.2.2, hp, hb]

theorem branch_broadcast_invariant_witness :
    mkAnalysisRow wForecast wStock 9 (1, 2, 1) ∈ runAnalysis wForecast wStock 9 ∧
      mkAnalysisRow wForecast wStock 9 (1, 2, 3) ∈ runAnalysis wForecast wStock 9 ∧
      (mkAnalysisRow wForecast wStock 9 (1, 2, 1)).total_stock_available =
          (mkAnalysisRow wForecast wStock 9 (1, 2, 3)).total_stock_available ∧
        (mkAnalysisRow wForecast wStock 9 (1, 2, 1)).total_forecast_at_branch =
          (mkAnalysisRow wForecast wStock 9 (1, 2, 3)).total_forecast_at_branch ∧
        (mkAnalysisRow wForecast wStock 9 (1, 2, 1)).branch_net_need =
          (mkAnalysisRow wForecast wStock 9 (1, 2, 3)).branch_net_need ∧
        (mkAnalysisRow wForecast wStock 9 (1, 2, 1)).allocation_status =
          (mkAnalysisRow wForecast wStock 9 (1, 2, 3)).allocation_status :=
  ⟨by decide, by decide,
    branch_broadcast_invariant wForecast wStock 9 _ _ (by decide) (by decide)
      (by decide) (by decide)⟩

/-- C9: an analysis row is classified "Allocation Needed" exactly when its
`branch_net_need` is positive, "No Allocation Needed" exactly when it is
zero, and "Overstock" exactly when it is negative. -/
theorem status_classification (f : List ForecastRecord) (s : List StockBatch)
    (cw : Int) (row : AnalysisRow) (h : row ∈ runAnalysis f s cw) :
    (row.allocation_status = "Allocation Needed" ↔ 0 < row.branch_net_need) ∧
      (row.allocation_status = "No Allocation Needed" ↔ row.branch_net_need = 0) ∧
      (row.allocation_status = "Overstock" ↔ row.branch_net_need < 0) := by
  have hf := runAnalysis_mem_fields h
  rw [hf.2.2.2.2, hf.2.2.2.1]
  exact ⟨allocationStatus_needed _, allocationStatus_no _, allocationStatus_over _⟩

theorem status_classification_witness :
    mkAnalysisRow wForecast wStock 9 (1, 2, 1) ∈ runAnalysis wForecast wStock 9 ∧
      (((mkAnalysisRow wForecast wStock 9 (1, 2, 1)).allocation_status =
          "Allocation Needed" ↔
        0 < (mkAnalysisRow wForecast wStock 9 (1, 2, 1)).branch_net_need) ∧
      ((mkAnalysisRow wForecast wStock 9 (1, 2, 1)).allocation_status =
          "No Allocation Needed" ↔
        (mkAnalysisRow wForecast wStock 9 (1, 2, 1)).branch_net_need = 0) ∧
      ((mkAnalysisRow wForecast wStock 9 (1, 2, 1)).allocation_status =
          "Overstock" ↔
        (mkAnalysisRow wForecast wStock 9 (1, 2, 1)).branch_net_need < 0)) :=
  ⟨by decide, status_classification wForecast wStock 9 _ (by decide)⟩

/-- C10: a forecast key with no destination-branch stock at its
`(product_id, branch_id)` still yields an analysis row, with
`total_stock_available = 0` and hence `branch_net_need =
total_forecast_at_branch`; central-warehouse stock never counts. -/
theorem zero_fill_left_join (f : List ForecastRecord) (s : List StockBatch)
    (cw p b c : Int)
    (hkey : ∃ r ∈ f, r.product_id = p ∧ r.branch_id = b ∧ r.channel_id = c)
    (hnos : ∀ sb ∈ s, sb.branch_id ≠ cw →
      ¬(sb.product_id = p ∧ sb.branch_id = b)) :
    ∃ row ∈ runAnalysis f s cw, row.product_id = p ∧ row.branch_id = b ∧
      row.channel_id = c ∧ row.total_stock_available = 0 ∧
      row.branch_net_need = row.total_forecast_at_branch := by
  have h0 : branchStockSum s cw p b = 0 := by
    have hnil : (destinationStock s cw).filter
        (fun sb => sb.product_id = p ∧ sb.branch_id = b) = [] := by
      rw [List.filter_eq_nil]
      intro sb hsb
      have hmem : sb ∈ s ∧ sb.branch_id ≠ cw := by
        unfold destinationStock at hsb
        rw [List.mem_filter] at hsb
        simpa using hsb
      simpa using hnos sb hmem.1 hmem.2
    unfold branchStockSum
    rw [hnil]
    rfl
  refine ⟨mkAnalysisRow f s cw (p, b, c), runAnalysis_mem_of_key hkey,
    rfl, rfl, rfl, h0, ?_⟩
  show netNeed f s cw p b = branchForecastSum f p b
  unfold netNeed
  rw [h0]
  ring

theorem zero_fill_left_join_witness :
    (∃ r ∈ wForecast, r.product_id = 4 ∧ r.branch_id = 2 ∧ r.channel_id = 1) ∧
      (∀ sb ∈ wStock, sb.branch_id ≠ 9 →
        ¬(sb.product_id = 4 ∧ sb.branch_id = 2)) ∧
      ∃ row ∈ runAnalysis wForecast wStock 9, row.product_id = 4 ∧
        row.branch_id = 2 ∧ row.channel_id = 1 ∧
        row.total_stock_available = 0 ∧
        row.branch_net_need = row.total_forecast_at_branch :=
  ⟨by decide, by decide,
    zero_fill_left_join wForecast wStock 9 4 2 1 (by decide) (by decide)⟩

/-- C6: a demand line for whose channel no working-copy batch of the line's
product meets the required expiry date is skipped entirely: the iteration
appends no record and leaves both the working stock and the branch-need
tracker unchanged. -/
theorem skip_ineligible (cwid now : Int) (rules : List (Int × Int))
    (st : AllocState) (line : AnalysisRow)
    (h : (st.stock.filter (fun e => e.2.product_id = line.product_id ∧
        now + ruleDays rules line.channel_id ≤ e.2.expiry_date)).isEmpty = true) :
    processLine cwid now rules st line = (st, []) := by
  by_cases hr : trackerGet st.tracker (line.product_id, line.branch_id) ≤ 0
  · exact pl_skip hr
  · exact pl_empty hr h

theorem skip_ineligible_witness :
    ((wSkipState.stock.filter (fun e => e.2.product_id = wSkipLine.product_id ∧
        0 + ruleDays [(3, 100)] wSkipLine.channel_id ≤
          e.2.expiry_date)).isEmpty = true) ∧
      processLine 9 0 [(3, 100)] wSkipState wSkipLine = (wSkipState, []) :=
  ⟨by decide, skip_ineligible 9 0 [(3, 100)] wSkipState wSkipLine (by decide)⟩

/-- C7: `run_allocation` only replaces the three output dataframes of the
instance; the stock and analysis tables (and the forecast and CW id) are
unchanged, so re-running with different priorities and rules starts from
the original, unmutated stock and yields the same result as a first run
would. -/
theorem working_copy_isolation (sys : SystemState) (pc pb : List Int)
    (rules : List (Int × Int)) (now : Int) (sys' : SystemState)
    (h : runAllocationSys sys pc pb rules now = some sys') :
    sys'.forecast_df = sys.forecast_df ∧ sys'.stock_df = sys.stock_df ∧
      sys'.analysis_df = sys.analysis_df ∧
      sys'.cw_branch_id = sys.cw_branch_id ∧
      ∀ (pc2 pb2 : List Int) (rules2 : List (Int × Int)) (now2 : Int),
        runAllocationSys sys' pc2 pb2 rules2 now2 =
          runAllocationSys sys pc2 pb2 rules2 now2 := by
  unfold runAllocationSys at h
  rw [Option.map_eq_some'] at h
  obtain ⟨r, _, rfl⟩ := h
  exact ⟨rfl, rfl, rfl, rfl, fun _ _ _ _ => rfl⟩

theorem working_copy_isolation_witness :
    wSysOut.forecast_df = wSys.forecast_df ∧
      wSysOut.stock_df = wSys.stock_df ∧
      wSysOut.analysis_df = wSys.analysis_df ∧
      wSysOut.cw_branch_id = wSys.cw_branch_id ∧
      ∀ (pc2 pb2 : List Int) (rules2 : List (Int × Int)) (now2 : Int),
        runAllocationSys wSysOut pc2 pb2 rules2 now2 =
          runAllocationSys wSys pc2 pb2 rules2 now2 :=
  working_copy_isolation wSys [5] [] [(1, 3)] 0 wSysOut (by decide)

/-- C4: the demand lines processed by `run_allocation` are exactly the
"Allocation Needed" analysis rows, arranged so that the sort key
(channel rank, branch rank, negated forecast quantity) is non-decreasing;
consequently channel ranks are non-decreasing along the processing order,
and no line of a non-priority channel ever precedes a line of a priority
channel. -/
theorem priority_ordering (analysis : List AnalysisRow) (pc pb : List Int) :
    (prioritizedDemand pc pb analysis).Perm (demandLines analysis) ∧
      (prioritizedDemand pc pb analysis).Pairwise (demandRel pc pb) ∧
      (prioritizedDemand pc pb analysis).Pairwise
        (fun x y => chanRank pc x.channel_id ≤ chanRank pc y.channel_id) ∧
      (prioritizedDemand pc pb analysis).Pairwise
        (fun x y => y.channel_id ∈ pc → x.channel_id ∈ pc) := by
  have hrank : ∀ x y : AnalysisRow, demandRel pc pb x y →
      chanRank pc x.channel_id ≤ chanRank pc y.channel_id := by
    intro x y h
    simp only [demandRel, lex3, demandKey] at h
    omega
  refine ⟨prioritizedDemand_perm pc pb analysis,
    prioritizedDemand_sorted pc pb analysis, ?_, ?_⟩
  · exact (prioritizedDemand_sorted pc pb analysis).imp (fun h => hrank _ _ h)
  · refine (prioritizedDemand_sorted pc pb analysis).imp ?_
    intro x y h hy
    have := hrank x y h
    unfold chanRank at this
    rw [if_pos hy] at this
    by_contra hx
    rw [if_neg hx] at this
    omega

theorem priority_ordering_witness :
    (prioritizedDemand [3] [] (runAnalysis wForecast wStock 9)).Perm
        (demandLines (runAnalysis wForecast wStock 9)) ∧
      (prioritizedDemand [3] [] (runAnalysis wForecast wStock 9)).Pairwise
        (demandRel [3] []) ∧
      (prioritizedDemand [3] [] (runAnalysis wForecast wStock 9)).Pairwise
        (fun x y => chanRank [3] x.channel_id ≤ chanRank [3] y.channel_id) ∧
      (prioritizedDemand [3] [] (runAnalysis wForecast wStock 9)).Pairwise
        (fun x y => y.channel_id ∈ [3] → x.channel_id ∈ [3]) :=
  priority_ordering (runAnalysis wForecast wStock 9) [3] []

/-- C5: `run_allocation` never takes the `IndexError` path, because every
tracker key stems from a demand line and hence from an analysis row, so the
`.iloc[0]` lookup always finds a row; `run_analysis` and `run_allocation`
are total Lean functions, and empty inputs give empty outputs. -/
theorem allocation_totality (analysis : List AnalysisRow)
    (stock : List StockBatch) (cw : Int) (pc pb : List Int)
    (rules : List (Int × Int)) (now : Int) :
    (∃ res, runAllocation analysis stock cw pc pb rules now = some res) ∧
      runAnalysis [] stock cw = [] ∧
      runAllocation [] [] cw pc pb rules now =
        some { plan := [], unfulfilled := [], remaining := [] } := by
  refine ⟨?_, rfl, rfl⟩
  rw [runAllocation_eq]
  have hsome : (unfulfilledList analysis
      (runLines cw now rules (initState analysis stock cw)
        (prioritizedDemand pc pb analysis)).1.tracker).isSome := by
    apply unfulfilledList_isSome
    intro t ht
    have hmem : t.1 ∈ (runLines cw now rules (initState analysis stock cw)
        (prioritizedDemand pc pb analysis)).1.tracker.map Prod.fst :=
      List.mem_map_of_mem Prod.fst ht
    rw [runLines_tracker_fst] at hmem
    have hmem2 : t.1 ∈ trackerKeys (demandLines analysis) := by
      rw [show (initState analysis stock cw).tracker =
        initTracker (demandLines analysis) from rfl, initTracker_fst] at hmem
      exact hmem
    obtain ⟨line, hl, h1, h2⟩ := trackerKeys_mem.1 hmem2
    exact ⟨line, (demandLines_mem.1 hl).1, h1, h2⟩
  obtain ⟨uf, huf⟩ := Option.isSome_iff_exists.1 hsome
  rw [huf]
  exact ⟨_, rfl⟩

theorem allocation_totality_witness :
    (∃ res, runAllocation (runAnalysis wForecast wStock 9) wStock 9 [3] [2]
        [(1, 45)] 0 = some res) ∧
      runAnalysis [] wStock 9 = [] ∧
      runAllocation [] [] 9 [3] [2] [(1, 45)] 0 =
        some { plan := [], unfulfilled := [], remaining := [] } :=
  allocation_totality (runAnalysis wForecast wStock 9) wStock 9 [3] [2]
    [(1, 45)] 0

/-- C3: every per-line block of records appended by the demand loop is in
non-decreasing `expiry_date` order (FEFO within a single demand line's
fulfillment), the produced plan is the concatenation of those blocks, and
no record of the whole run references a batch expiring before now plus the
channel's minimum-shelf-life days (0 days without a configured rule). -/
theorem fefo_ordering (analysis : List AnalysisRow) (stock : List StockBatch)
    (cw : Int) (pc pb : List Int) (rules : List (Int × Int)) (now : Int) :
    (∀ blk ∈ (runLines cw now rules (initState analysis stock cw)
        (prioritizedDemand pc pb analysis)).2,
      blk.Pairwise (fun r1 r2 => r1.expiry_date ≤ r2.expiry_date)) ∧
      ∀ res, runAllocation analysis stock cw pc pb rules now = some res →
        res.plan = (runLines cw now rules (initState analysis stock cw)
            (prioritizedDemand pc pb analysis)).2.flatten ∧
          ∀ rec1 ∈ res.plan,
            now + ruleDays rules rec1.channel_id ≤ rec1.expiry_date := by
  constructor
  · apply runLines_fefo
    · exact cwStockSorted_idx_nodup stock cw
    · exact cwStockSorted_pairwise stock cw
  · intro res hres
    rw [runAllocation_eq, Option.map_eq_some'] at hres
    obtain ⟨uf, _, rfl⟩ := hres
    exact ⟨rfl, fun rec1 h => runLines_recs cw now rules _ _ rec1 h⟩

theorem fefo_ordering_witness :
    (∀ blk ∈ (runLines 9 0 [(1, 45)] (initState (runAnalysis wForecast wStock 9)
        wStock 9) (prioritizedDemand [3] [] (runAnalysis wForecast wStock 9))).2,
      blk.Pairwise (fun r1 r2 => r1.expiry_date ≤ r2.expiry_date)) ∧
      ∀ res, runAllocation (runAnalysis wForecast wStock 9) wStock 9 [3] []
          [(1, 45)] 0 = some res →
        res.plan = (runLines 9 0 [(1, 45)]
            (initState (runAnalysis wForecast wStock 9) wStock 9)
            (prioritizedDemand [3] [] (runAnalysis wForecast wStock 9))).2.flatten ∧
          ∀ rec1 ∈ res.plan,
            0 + ruleDays [(1, 45)] rec1.channel_id ≤ rec1.expiry_date :=
  fefo_ordering (runAnalysis wForecast wStock 9) wStock 9 [3] [] [(1, 45)] 0

/-- C2: for a CW batch (row `i` of the stock table) with non-negative
quantity, the plan draws at most the batch's original `stock_available`
from it; the batch appears in the remaining-stock snapshot exactly when
original minus drawn is positive, and then with exactly that quantity and
otherwise unchanged fields. -/
theorem stock_conservation (analysis : List AnalysisRow)
    (stock : List StockBatch) (cw : Int) (pc pb : List Int)
    (rules : List (Int × Int)) (now : Int) (res : AllocResult)
    (hres : runAllocation analysis stock cw pc pb rules now = some res)
    (i : Nat) (b0 : StockBatch) (hib : (i, b0) ∈ stock.enum)
    (hcw : b0.branch_id = cw) (hnn : 0 ≤ b0.stock_available) :
    planSumBatch res.plan i ≤ b0.stock_available ∧
      ((∃ e ∈ res.remaining, e.1 = i) ↔
        0 < b0.stock_available - planSumBatch res.plan i) ∧
      ∀ e ∈ res.remaining, e.1 = i →
        e.2 = { b0 with stock_available :=
          b0.stock_available - planSumBatch res.plan i } := by
  rw [runAllocation_eq, Option.map_eq_some'] at hres
  obtain ⟨uf, huf, rfl⟩ := hres
  simp only
  have hnd := cwStockSorted_idx_nodup stock cw
  have hball := runLines_stock cw now rules (prioritizedDemand pc pb analysis)
    (initState analysis stock cw) hnd
  have he0 : ((i, b0) : Nat × StockBatch) ∈ cwStockSorted stock cw :=
    cwStockSorted_mem.2 ⟨hib, hcw⟩
  obtain ⟨e', he', hrel⟩ := forall₂_exists_left hball he0
  obtain ⟨hi', hp', hb', hx', hs', hn'⟩ := hrel
  simp only at hi' hp' hb' hx' hs' hn'
  refine ⟨?_, ⟨?_, ?_⟩, ?_⟩
  · have := hn' hnn
    omega
  · rintro ⟨e, he, hei⟩
    rw [List.mem_filter] at he
    have hlt : 0 < e.2.stock_available := by simpa using he.2
    obtain ⟨e0, he0', hrel0⟩ := forall₂_exists_right hball he.1
    have heq0 : e0 = (i, b0) :=
      eq_of_mem_of_idx_eq hnd he0' he0 (by rw [← hrel0.1, hei])
    rw [heq0] at hrel0
    have hs0 := hrel0.2.2.2.2.1
    simp only at hs0
    omega
  · intro hpos
    refine ⟨e', ?_, hi'⟩
    rw [List.mem_filter]
    refine ⟨he', ?_⟩
    simp only [decide_eq_true_eq]
    omega
  · intro e he hei
    rw [List.mem_filter] at he
    obtain ⟨e0, he0', hrel0⟩ := forall₂_exists_right hball he.1
    have heq0 : e0 = (i, b0) :=
      eq_of_mem_of_idx_eq hnd he0' he0 (by rw [← hrel0.1, hei])
    rw [heq0] at hrel0
    obtain ⟨_, hp0, hb0, hx0, hs0, _⟩ := hrel0
    simp only at hp0 hb0 hx0 hs0
    exact stockBatch_ext hp0 hb0 (by rw [hs0]) hx0

theorem stock_conservation_witness :
    runAllocation (runAnalysis wForecast wStock 9) wStock 9 [] [] [] 0 =
        some wRes ∧
      planSumBatch wRes.plan 1 ≤ (100 : Int) ∧
      ((∃ e ∈ wRes.remaining, e.1 = 1) ↔
        0 < (100 : Int) - planSumBatch wRes.plan 1) ∧
      ∀ e ∈ wRes.remaining, e.1 = 1 →
        e.2 = { wBatch with stock_available :=
          (100 : Int) - planSumBatch wRes.plan 1 } :=
  ⟨by decide,
    stock_conservation (runAnalysis wForecast wStock 9) wStock 9 [] [] [] 0
      wRes (by decide) 1 wBatch (by decide) (by decide) (by decide)⟩

/-- C1: branch-need conservation.  Every unfulfilled row satisfies
`fulfilled + unfulfilled = needed` with `needed` the branch-level net need
of the analysis table; and for every `(product, branch)` with a demand
line, the total quantity allocated to that branch equals the reported
`fulfilled` when an unfulfilled row exists for the key, and equals the full
need when none does (given well-formed non-negative inputs). -/
theorem branch_need_conservation (f : List ForecastRecord)
    (s : List StockBatch) (cw : Int) (pc pb : List Int)
    (rules : List (Int × Int)) (now : Int) (res : AllocResult)
    (hf : ∀ r ∈ f, 0 ≤ r.forecast_quantity)
    (hs : ∀ b ∈ s, 0 ≤ b.stock_available)
    (hres : runAllocation (runAnalysis f s cw) s cw pc pb rules now = some res) :
    (∀ u ∈ res.unfulfilled,
        u.fulfilled + u.unfulfilled = u.needed ∧
        ∀ row ∈ runAnalysis f s cw, row.product_id = u.product_id →
          row.branch_id = u.branch_id → row.branch_net_need = u.needed) ∧
      ∀ line ∈ demandLines (runAnalysis f s cw),
        (∀ u ∈ res.unfulfilled, u.product_id = line.product_id →
            u.branch_id = line.branch_id →
            planSumBranch res.plan line.product_id line.branch_id = u.fulfilled) ∧
          ((∀ u ∈ res.unfulfilled, ¬(u.product_id = line.product_id ∧
              u.branch_id = line.branch_id)) →
            planSumBranch res.plan line.product_id line.branch_id =
              line.branch_net_need) := by
  rw [runAllocation_eq, Option.map_eq_some'] at hres
  obtain ⟨uf, huf, rfl⟩ := hres
  simp only
  have htr := runLines_tracker cw now rules
    (prioritizedDemand pc pb (runAnalysis f s cw))
    (initState (runAnalysis f s cw) s cw)
  have hndk : ((runLines cw now rules (initState (runAnalysis f s cw) s cw)
      (prioritizedDemand pc pb (runAnalysis f s cw))).1.tracker.map
        Prod.fst).Nodup := by
    rw [runLines_tracker_fst,
      show (initState (runAnalysis f s cw) s cw).tracker =
        initTracker (demandLines (runAnalysis f s cw)) from rfl,
      initTracker_fst]
    exact trackerKeys_nodup _
  constructor
  · intro u hu
    obtain ⟨t, ht, hpos, hup, hub, huu, row, hfind, hneed, hful⟩ :=
      unfulfilledList_mem huf u hu
    constructor
    · rw [hful, huu, hneed]; ring
    · intro row' hrow' hp' hb'
      have hrowneed := find?_analysis_need hfind
      have hf' := runAnalysis_mem_fields hrow'
      rw [hf'.2.2.2.1, hneed, hrowneed, hp', hb', hup, hub]
  · intro line hline
    have hkmem : (line.product_id, line.branch_id) ∈
        trackerKeys (demandLines (runAnalysis f s cw)) :=
      trackerKeys_mem.2 ⟨line, hline, rfl, rfl⟩
    have ht0 : ((line.product_id, line.branch_id),
        firstNeed (demandLines (runAnalysis f s cw))
          (line.product_id, line.branch_id)) ∈
        initTracker (demandLines (runAnalysis f s cw)) :=
      initTracker_mem.2 ⟨hkmem, rfl⟩
    obtain ⟨tF, htF, hrelF⟩ := forall₂_exists_left htr ht0
    obtain ⟨htF1, htF2⟩ := hrelF
    simp only at htF1 htF2
    have hfn : firstNeed (demandLines (runAnalysis f s cw))
        (line.product_id, line.branch_id) =
        netNeed f s cw line.product_id line.branch_id :=
      firstNeed_eq (fun r hr => (demandLines_mem.1 hr).1) ⟨line, hline, rfl, rfl⟩
    have hlineneed : line.branch_net_need =
        netNeed f s cw line.product_id line.branch_id :=
      (runAnalysis_mem_fields (demandLines_mem.1 hline).1).2.2.2.1
    constructor
    · intro u hu hup0 hub0
      obtain ⟨t, ht, hpos, hup, hub, huu, row, hfind, hneed, hful⟩ :=
        unfulfilledList_mem huf u hu
      have ht11 : t.1.1 = line.product_id := by rw [← hup, hup0]
      have ht12 : t.1.2 = line.branch_id := by rw [← hub, hub0]
      have htkey : t.1 = (line.product_id, line.branch_id) := by
        have heta : t.1 = (t.1.1, t.1.2) := rfl
        rw [heta, ht11, ht12]
      have hteq : t = tF := eq_of_mem_of_fst_eq hndk ht htF (by rw [htkey, htF1])
      have hrowneed := find?_analysis_need hfind
      rw [hful, hrowneed, ht11, ht12, hteq, htF2, hfn]
      ring
    · intro hnone
      have hle : tF.2 ≤ 0 := by
        by_contra hgt
        push_neg at hgt
        obtain ⟨u, hu, hup, hub, _⟩ := unfulfilledList_complete huf tF htF hgt
        exact hnone u hu ⟨hup.trans (by rw [htF1]), hub.trans (by rw [htF1])⟩
      have hge : 0 ≤ tF.2 := by
        refine runLines_tracker_nonneg cw now rules
          (prioritizedDemand pc pb (runAnalysis f s cw))
          (initState (runAnalysis f s cw) s cw) ?_ ?_ ?_ ?_ ?_ tF htF
        · rw [show (initState (runAnalysis f s cw) s cw).tracker =
            initTracker (demandLines (runAnalysis f s cw)) from rfl,
            initTracker_fst]
          exact trackerKeys_nodup _
        · exact cwStockSorted_idx_nodup s cw
        · intro t' ht'
          exact le_of_lt (initTracker_netNeed ht').2
        · exact cwStockSorted_nonneg hs
        · exact prioritized_forecast_nonneg hf
      have htF20 : tF.2 = 0 := le_antisymm hle hge
      rw [htF2, hfn] at htF20
      rw [hlineneed]
      omega

theorem branch_need_conservation_witness :
    (∀ u ∈ wRes.unfulfilled,
        u.fulfilled + u.unfulfilled = u.needed ∧
        ∀ row ∈ runAnalysis wForecast wStock 9, row.product_id = u.product_id →
          row.branch_id = u.branch_id → row.branch_net_need = u.needed) ∧
      ∀ line ∈ demandLines (runAnalysis wForecast wStock 9),
        (∀ u ∈ wRes.unfulfilled, u.product_id = line.product_id →
            u.branch_id = line.branch_id →
            planSumBranch wRes.plan line.product_id line.branch_id =
              u.fulfilled) ∧
          ((∀ u ∈ wRes.unfulfilled, ¬(u.product_id = line.product_id ∧
              u.branch_id = line.branch_id)) →
            planSumBranch wRes.plan line.product_id line.branch_id =
              line.branch_net_need) :=
  branch_need_conservation wForecast wStock 9 [] [] [] 0 wRes
    (by decide) (by decide) (by decide)
